import Mathlib

/-!
Verification development for the matrix-year crawl engine.

Shallow embedding of the core components:
- the crawl-decision evaluator (`src/crawl/decision.rs` and the legacy copy in
  `src/crawl.rs`),
- the metadata store operations of `src/crawl_db.rs` (the SQL upserts are
  modelled as pure row transformers; rows are keyed per room, so the model
  works on one row),
- the backward-pagination fold of `src/crawl/pagination.rs`,
- the stats builder of `src/stats_builder.rs`,
- the window parser of `src/window.rs`.

Machine integers of the source (i64 timestamps, usize counters) are modelled
as `Int` and `Nat`; the values involved never approach the overflow bounds,
and no arithmetic in the modelled code relies on wrapping.
-/

namespace MatrixYear

/-- Rust `Option::is_none_or` on an optional integer. -/
def isNoneOr (o : Option Int) (p : Int → Bool) : Bool :=
  match o with
  | none => true
  | some v => p v

/--
One row of the `room_crawl_metadata` table of `src/crawl_db.rs`
(minus the `room_id` primary key: every store operation is keyed by room, so
the model works per room). Default field values are the SQL column defaults
used by a plain `INSERT` that does not mention the column.
-/
structure RoomCrawlMetadata where
  oldest_event_id : Option String := none
  oldest_event_ts : Option Int := none
  newest_event_id : Option String := none
  newest_event_ts : Option Int := none
  fully_crawled : Bool := false
  total_events_fetched : Nat := 0
  user_events_fetched : Nat := 0
  last_crawl_status : Option String := none
  last_crawl_error : Option String := none
deriving Repr, DecidableEq

namespace Decision

/--
`should_crawl_room` from `src/src/crawl/decision.rs` (lines 32-77).
The only fallible part of the source function is the database lookup
`db.get_room_metadata(room_id)?`; its result is passed in as `metadata`, and
the rest of the function is pure.
-/
def should_crawl_room (metadata : Option RoomCrawlMetadata)
    (window_start_ts : Option Int) (window_end_ts : Int)
    (latest_event : Option (String × Int)) : Bool :=
  match metadata with
  | none =>
    match latest_event with
    | some (_latest_id, latest_ts) =>
      match window_start_ts with
      | some start => if latest_ts < start then false else true
      | none => true
    | none => true
  | some meta =>
    let old_end_needs_crawl :=
      match window_start_ts with
      | none => !meta.fully_crawled
      | some start =>
        !meta.fully_crawled && isNoneOr meta.oldest_event_ts (fun ts => decide (ts > start))
    let new_end_needs_crawl :=
      isNoneOr meta.newest_event_ts (fun ts => decide (ts < window_end_ts))
    let new_end_needs_crawl :=
      match latest_event with
      | some (latest_id, latest_ts) =>
        if meta.newest_event_id == some latest_id && meta.newest_event_ts == some latest_ts then
          false
        else
          new_end_needs_crawl
      | none => new_end_needs_crawl
    old_end_needs_crawl || new_end_needs_crawl

end Decision

namespace Crawl

/--
The legacy `should_crawl_room` from `src/src/crawl.rs` (lines 374-419),
translated independently of the copy in `decision.rs`.
-/
def should_crawl_room (metadata : Option RoomCrawlMetadata)
    (window_start_ts : Option Int) (window_end_ts : Int)
    (latest_event : Option (String × Int)) : Bool :=
  match metadata with
  | none =>
    match latest_event with
    | some (_latest_id, latest_ts) =>
      match window_start_ts with
      | some start => if latest_ts < start then false else true
      | none => true
    | none => true
  | some meta =>
    let old_end_needs_crawl :=
      match window_start_ts with
      | none => !meta.fully_crawled
      | some start =>
        !meta.fully_crawled && isNoneOr meta.oldest_event_ts (fun ts => decide (ts > start))
    let new_end_needs_crawl :=
      isNoneOr meta.newest_event_ts (fun ts => decide (ts < window_end_ts))
    let new_end_needs_crawl :=
      match latest_event with
      | some (latest_id, latest_ts) =>
        if meta.newest_event_id == some latest_id && meta.newest_event_ts == some latest_ts then
          false
        else
          new_end_needs_crawl
      | none => new_end_needs_crawl
    old_end_needs_crawl || new_end_needs_crawl

end Crawl

/--
Reference decision function, written from the words of the spec (section 4.4):
virgin room: hint absent means SHOULD_CRAWL; window_start set and
hint.ts < window_start means SKIP; otherwise SHOULD_CRAWL. Known room:
old_end_needs_crawl and new_end_needs_crawl as spelled out there, with the
override of new_end_needs_crawl exactly on an (id, ts) identity match.
-/
def specDecision (record : Option RoomCrawlMetadata)
    (window_start_ts : Option Int) (window_end_ts : Int)
    (hint : Option (String × Int)) : Bool :=
  match record with
  | none =>
    match hint with
    | none => true
    | some (_hid, hts) =>
      match window_start_ts with
      | some ws => if hts < ws then false else true
      | none => true
  | some record =>
    let old_end :=
      match window_start_ts with
      | none => !record.fully_crawled
      | some ws =>
        !record.fully_crawled &&
          (match record.oldest_event_ts with
           | none => true
           | some ts => decide (ts > ws))
    let new_end0 :=
      match record.newest_event_ts with
      | none => true
      | some ts => decide (ts < window_end_ts)
    let override :=
      match hint with
      | some (hid, hts) =>
        record.newest_event_id == some hid && record.newest_event_ts == some hts
      | none => false
    let new_end := if override then false else new_end0
    old_end || new_end

/-- `CrawlStatus` of `src/crawl_db.rs`. -/
inductive CrawlStatus
  | virgin
  | success
  | inProgress
  | error (msg : String)
deriving Repr, DecidableEq

/-- `CrawlStatus::as_str`. -/
def CrawlStatus.as_str : CrawlStatus → String
  | .virgin => "virgin"
  | .success => "success"
  | .inProgress => "in_progress"
  | .error _ => "error"

/-- `CrawlStatus::error_message`. -/
def CrawlStatus.error_message : CrawlStatus → Option String
  | .error msg => some msg
  | _ => none

namespace CrawlDb

/--
`CrawlDb::update_room_metadata` (`src/crawl_db.rs` lines 121-157), as the row
transformer its `INSERT ... ON CONFLICT(room_id) DO UPDATE` performs on the
(possibly absent) row of the addressed room. In the SQL,
`COALESCE(MIN(excluded.ts, ts), excluded.ts)` is the minimum when the stored
value is non-NULL and the excluded value otherwise (SQLite `MIN` with a NULL
argument is NULL), and symmetrically for `MAX`.
-/
def update_room_metadata (row : Option RoomCrawlMetadata)
    (oldest_event_id : Option String) (oldest_event_ts : Option Int)
    (newest_event_id : Option String) (newest_event_ts : Option Int)
    (fully_crawled : Bool) : RoomCrawlMetadata :=
  match row with
  | none =>
    { oldest_event_id := oldest_event_id
      oldest_event_ts := oldest_event_ts
      newest_event_id := newest_event_id
      newest_event_ts := newest_event_ts
      fully_crawled := fully_crawled }
  | some r =>
    { r with
      oldest_event_id :=
        match oldest_event_id with
        | some eid => some eid
        | none => r.oldest_event_id
      oldest_event_ts :=
        match oldest_event_ts, r.oldest_event_ts with
        | some ts, some old => some (min ts old)
        | some ts, none => some ts
        | none, old => old
      newest_event_id :=
        match newest_event_id with
        | some eid => some eid
        | none => r.newest_event_id
      newest_event_ts :=
        match newest_event_ts, r.newest_event_ts with
        | some ts, some old => some (max ts old)
        | some ts, none => some ts
        | none, old => old
      fully_crawled := r.fully_crawled || fully_crawled }

/-- `CrawlDb::set_crawl_status` (`src/crawl_db.rs`): upsert of the status columns only. -/
def set_crawl_status (row : Option RoomCrawlMetadata) (status : CrawlStatus) :
    RoomCrawlMetadata :=
  match row with
  | none =>
    { last_crawl_status := some status.as_str
      last_crawl_error := status.error_message }
  | some r =>
    { r with
      last_crawl_status := some status.as_str
      last_crawl_error := status.error_message }

/-- `CrawlDb::update_max_event_counts` (`src/crawl_db.rs` lines 289-304): MAX-merge upsert
of the two counters. -/
def update_max_event_counts (row : Option RoomCrawlMetadata)
    (total_events : Nat) (user_events : Nat) : RoomCrawlMetadata :=
  match row with
  | none =>
    { total_events_fetched := total_events
      user_events_fetched := user_events }
  | some r =>
    { r with
      total_events_fetched := max r.total_events_fetched total_events
      user_events_fetched := max r.user_events_fetched user_events }

end CrawlDb

/-- One store operation on a single room's row. -/
inductive StoreOp
  | updateMeta (oldest_event_id : Option String) (oldest_event_ts : Option Int)
      (newest_event_id : Option String) (newest_event_ts : Option Int) (fully_crawled : Bool)
  | setStatus (status : CrawlStatus)
  | updateCounts (total_events user_events : Nat)

/-- Apply one store operation to the room's row; all three operations are upserts,
so the result is always a present row. -/
def applyOp (row : Option RoomCrawlMetadata) : StoreOp → RoomCrawlMetadata
  | .updateMeta oid ots nid nts fc => CrawlDb.update_room_metadata row oid ots nid nts fc
  | .setStatus st => CrawlDb.set_crawl_status row st
  | .updateCounts t u => CrawlDb.update_max_event_counts row t u

/-- Apply a sequence of store operations to the room's row. -/
def applyOps (row : Option RoomCrawlMetadata) : List StoreOp → Option RoomCrawlMetadata
  | [] => row
  | op :: ops => applyOps (some (applyOp row op)) ops

/--
The per-room monotonicity relation of the spec between an earlier and a later
store state: once present, `oldest_event_ts` only goes down and
`newest_event_ts` only goes up, `fully_crawled` never reverts to false, and
the two counters never decrease.
-/
def rowMonotone (s t : Option RoomCrawlMetadata) : Prop :=
  ∀ r, s = some r → ∃ r', t = some r' ∧
    (∀ o, r.oldest_event_ts = some o → ∃ o', r'.oldest_event_ts = some o' ∧ o' ≤ o) ∧
    (∀ n, r.newest_event_ts = some n → ∃ n', r'.newest_event_ts = some n' ∧ n ≤ n') ∧
    (r.fully_crawled = true → r'.fully_crawled = true) ∧
    r.total_events_fetched ≤ r'.total_events_fetched ∧
    r.user_events_fetched ≤ r'.user_events_fetched

/-- Merge of an optional new timestamp into an optional stored one, taking the
minimum when both are present (the effect of the source's `oldest_event_ts` SQL). -/
def optMinMerge : Option Int → Option Int → Option Int
  | none, old => old
  | some ts, none => some ts
  | some ts, some old => some (min ts old)

/-- Merge of an optional new timestamp into an optional stored one, taking the
maximum when both are present (the effect of the source's `newest_event_ts` SQL). -/
def optMaxMerge : Option Int → Option Int → Option Int
  | none, old => old
  | some ts, none => some ts
  | some ts, some old => some (max ts old)

/-- `TimeWindow` of `src/crawl_db.rs`. -/
structure TimeWindow where
  window_start : Option Int
  window_end : Option Int
  account_creation_ts : Option Int
deriving Repr, DecidableEq

/-- SQL aggregate `MAX` over the listed non-NULL values of a column:
NULL (`none`) when the set is empty. -/
def sqlMax : List Int → Option Int
  | [] => none
  | x :: xs =>
    match sqlMax xs with
    | none => some x
    | some m => some (max x m)

/-- SQL aggregate `MIN` over the listed non-NULL values of a column:
NULL (`none`) when the set is empty. -/
def sqlMin : List Int → Option Int
  | [] => none
  | x :: xs =>
    match sqlMin xs with
    | none => some x
    | some m => some (min x m)

/--
`CrawlDb::get_time_window` (`src/crawl_db.rs` lines 224-271), over the list of
rows of the `room_crawl_metadata` table. The source's SQL counts rows with
`fully_crawled = 0`; when that count is zero `window_start` is `None`,
otherwise it is `MAX(oldest_event_ts)` over the rows with `fully_crawled = 0`
whose `oldest_event_ts` is non-NULL.
-/
def CrawlDb.get_time_window (rows : List RoomCrawlMetadata) : Option TimeWindow :=
  if rows.isEmpty then none
  else
    let window_start :=
      if (rows.filter (fun r => !r.fully_crawled)).isEmpty then none
      else sqlMax ((rows.filter (fun r => !r.fully_crawled)).filterMap (·.oldest_event_ts))
    let window_end := sqlMax (rows.filterMap (·.newest_event_ts))
    let account_creation_ts := sqlMin (rows.filterMap (·.oldest_event_ts))
    some
      { window_start := window_start
        window_end := window_end
        account_creation_ts := account_creation_ts }

/-- A concrete store row used to instantiate theorems at a sample input. -/
def twRow : RoomCrawlMetadata :=
  { oldest_event_ts := some 5, newest_event_ts := some 7, fully_crawled := false }

/--
The shape of a deserialized timeline event as far as the aggregator of
`src/crawl/pagination.rs` inspects it: the branches of its `match` on
`AnySyncTimelineEvent`. For a reaction, `content` is the result of
`r.as_original().map(|o| &o.content)` projected to the annotation's
`(key, target event id)`; it is `none` for a redacted reaction.
-/
inductive EventKind
  | roomMessage
  | roomEncrypted
  | reaction (content : Option (String × String))
  | otherMessageLike
  | roomCreate
  | otherState
deriving Repr, DecidableEq

/-- The sender plus kind obtained from a successful `event.raw().deserialize()`. -/
structure DeserializedEvent where
  sender : String
  kind : EventKind
deriving Repr, DecidableEq

/-- A timeline event as the pagination code reads it: optional event id,
optional origin-server timestamp in ms, and the (possibly failing)
deserialization result. -/
structure TimelineEvent where
  event_id : Option String
  timestamp : Option Int
  deserialized : Option DeserializedEvent
deriving Repr, DecidableEq

/-- The six temporal bucket keys the source formats from one local datetime
(`dt.year()`, `dt.month()`, ISO week, weekday from Monday, day, hour). -/
structure LocalBuckets where
  year : String
  month : String
  week : String
  weekday : String
  day : String
  hour : String
deriving Repr, DecidableEq

/-- `DetailedPaginationStats` of `src/crawl/types.rs`. Count maps are modelled
as total functions that are zero outside their recorded keys;
`user_message_ids` maps an event id to the room id it was recorded under;
`active_dates` is the key set of the source's `HashMap<String, bool>`. -/
structure DetailedPaginationStats where
  fully_crawled : Bool
  oldest_event_id : Option String
  oldest_ts : Option Int
  newest_event_id : Option String
  newest_ts : Option Int
  total_events : Nat
  user_events : Nat
  by_year : String → Nat
  by_month : String → Nat
  by_week : String → Nat
  by_weekday : String → Nat
  by_day : String → Nat
  by_hour : String → Nat
  user_message_ids : String → Option String
  reactions_by_emoji : String → Nat
  reactions_by_message : String → Nat
  room_created_by_user : Bool
  active_dates : List String

/-- `*map.entry(key).or_insert(0) += 1` on a count map. -/
def bump (m : String → Nat) (k : String) : String → Nat :=
  fun x => if x = k then m x + 1 else m x

/-- The fixed inputs of one call to `paginate_and_collect_detailed_stats`.
`localBuckets` models `Local.timestamp_millis_opt(ts).single()` composed with
the six format calls: the ambient local time zone, not derived from the
window. -/
structure PagConfig where
  window_start_ts : Option Int
  window_end_ts : Int
  user_id : String
  room_id : String
  localBuckets : Int → Option LocalBuckets

/-- The mutable state of the pagination loop: the statistics under
construction, the progress counter, and the `stop_at_window` flag. -/
structure PagState where
  stats : DetailedPaginationStats
  progress_events : Nat
  stop_at_window : Bool

/-- The aggregation applied to an event that passed the window checks
(`src/crawl/pagination.rs` lines 283-363): count it, bucket it when a local
datetime and a deserialization are available, and dispatch on the event kind. -/
def processIncludedEvent (cfg : PagConfig) (s : PagState) (event : TimelineEvent)
    (ts : Int) : PagState :=
  let s := { s with stats := { s.stats with total_events := s.stats.total_events + 1 } }
  match cfg.localBuckets ts with
  | none => s
  | some dt =>
    match event.deserialized with
    | none => s
    | some de =>
      let is_user_event := de.sender == cfg.user_id
      match de.kind with
      | .roomMessage | .roomEncrypted =>
        if is_user_event then
          let stats := s.stats
          let stats :=
            { stats with
              user_events := stats.user_events + 1
              by_year := bump stats.by_year dt.year
              by_month := bump stats.by_month dt.month
              by_week := bump stats.by_week dt.week
              by_weekday := bump stats.by_weekday dt.weekday
              by_day := bump stats.by_day dt.day
              by_hour := bump stats.by_hour dt.hour
              active_dates :=
                if dt.day ∈ stats.active_dates then stats.active_dates
                else dt.day :: stats.active_dates }
          let stats :=
            match event.event_id with
            | some eid =>
              { stats with
                user_message_ids :=
                  fun x => if x = eid then some cfg.room_id else stats.user_message_ids x }
            | none => stats
          { s with stats := stats }
        else s
      | .reaction content =>
        match content with
        | some (emoji, target) =>
          if (s.stats.user_message_ids target).isSome then
            { s with stats :=
                { s.stats with
                  reactions_by_emoji := bump s.stats.reactions_by_emoji emoji
                  reactions_by_message := bump s.stats.reactions_by_message target } }
          else s
        | none => s
      | .otherMessageLike => s
      | .roomCreate =>
        if is_user_event then
          { s with stats := { s.stats with room_created_by_user := true } }
        else s
      | .otherState => s

/-- The extrema updates of the loop body: take the event as new oldest or
newest under strict comparison, carrying its id. -/
def updateExtrema (stats : DetailedPaginationStats) (event_id : Option String)
    (ts : Int) : DetailedPaginationStats :=
  let stats :=
    if isNoneOr stats.oldest_ts (fun old => decide (ts < old)) then
      { stats with oldest_ts := some ts, oldest_event_id := event_id }
    else stats
  if isNoneOr stats.newest_ts (fun n => decide (ts > n)) then
    { stats with newest_ts := some ts, newest_event_id := event_id }
  else stats

/-- The per-event body of the backward-pagination loop
(`src/crawl/pagination.rs` lines 258-363): skip events without a timestamp,
update the global extrema and the progress counter regardless of window
membership, set `stop_at_window` and skip when the timestamp is strictly
before the window start, skip when it is after the window end, and otherwise
aggregate. -/
def processLoopEvent (cfg : PagConfig) (s : PagState) (event : TimelineEvent) : PagState :=
  match event.timestamp with
  | none => s
  | some ts =>
    let s := { s with
      stats := updateExtrema s.stats event.event_id ts
      progress_events := s.progress_events + 1 }
    if (match cfg.window_start_ts with
        | some start => decide (ts < start)
        | none => false) then
      { s with stop_at_window := true }
    else if decide (ts > cfg.window_end_ts) then s
    else processIncludedEvent cfg s event ts

/-- Processing of the events of one pagination batch, in order. -/
def processBatchEvents (cfg : PagConfig) (s : PagState) (events : List TimelineEvent) :
    PagState :=
  events.foldl (processLoopEvent cfg) s

/-- The result of one `run_backwards_once` call of the SDK facade. -/
structure PaginationOutcome where
  events : List TimelineEvent
  reached_start : Bool

/-- Mark the room fully crawled. -/
def markFullyCrawled (s : PagState) : PagState :=
  { s with stats := { s.stats with fully_crawled := true } }

/--
The batch loop of `paginate_and_collect_detailed_stats`
(`src/crawl/pagination.rs` lines 230-372), over the sequence of outcomes the
SDK would deliver. Returns the final state and the number of batches the loop
consumed before breaking (an empty outcome breaks immediately; a nonempty one
is processed and breaks when `stop_at_window` or `fully_crawled` holds
afterwards).
-/
def paginationLoop (cfg : PagConfig) (s : PagState) :
    List PaginationOutcome → PagState × Nat
  | [] => (s, 0)
  | o :: rest =>
    if o.events.isEmpty then
      ((if o.reached_start then markFullyCrawled s else s), 1)
    else
      let s1 := if o.reached_start then markFullyCrawled s else s
      let s2 := processBatchEvents cfg s1 o.events
      if s2.stop_at_window || s2.stats.fully_crawled then (s2, 1)
      else
        let r := paginationLoop cfg s2 rest
        (r.1, r.2 + 1)

/-- The initial loop state of `paginate_and_collect_detailed_stats`: empty
statistics seeded with the initial newest event, zero progress, flag unset. -/
def initialPagState (newest_event_id_initial : Option String)
    (newest_ts_initial : Option Int) : PagState :=
  { stats :=
      { fully_crawled := false
        oldest_event_id := none
        oldest_ts := none
        newest_event_id := newest_event_id_initial
        newest_ts := newest_ts_initial
        total_events := 0
        user_events := 0
        by_year := fun _ => 0
        by_month := fun _ => 0
        by_week := fun _ => 0
        by_weekday := fun _ => 0
        by_day := fun _ => 0
        by_hour := fun _ => 0
        user_message_ids := fun _ => none
        reactions_by_emoji := fun _ => 0
        reactions_by_message := fun _ => 0
        room_created_by_user := false
        active_dates := [] }
    progress_events := 0
    stop_at_window := false }

/-- Whether an event timestamp passes both window checks of the loop body
(not strictly before the start, not strictly after the end). -/
def inWindowForStats (cfg : PagConfig) (ts : Int) : Bool :=
  !(match cfg.window_start_ts with
    | some start => decide (ts < start)
    | none => false) && decide (ts ≤ cfg.window_end_ts)

/-- Whether the aggregation of a window-included `event` increments
`reactions_by_emoji em` from state `s`: a local datetime is available and the
event is a reaction carrying emoji `em` whose target is, at that moment, a
recorded user message. -/
def includedEmojiHit (cfg : PagConfig) (s : PagState) (event : TimelineEvent)
    (ts : Int) (em : String) : Bool :=
  (cfg.localBuckets ts).isSome &&
    match event.deserialized with
    | some de =>
      match de.kind with
      | .reaction (some (emoji, target)) =>
        emoji == em && (s.stats.user_message_ids target).isSome
      | _ => false
    | none => false

/-- Whether the aggregation of a window-included `event` increments
`reactions_by_message tgt` from state `s`. -/
def includedTargetHit (cfg : PagConfig) (s : PagState) (event : TimelineEvent)
    (ts : Int) (tgt : String) : Bool :=
  (cfg.localBuckets ts).isSome &&
    match event.deserialized with
    | some de =>
      match de.kind with
      | .reaction (some (_, target)) =>
        target == tgt && (s.stats.user_message_ids target).isSome
      | _ => false
    | none => false

/-- Whether processing `event` from state `s` increments
`reactions_by_emoji em`: the event is a window-included reaction carrying
emoji `em` whose target is, at that moment, a recorded user message. -/
def reactionEmojiHit (cfg : PagConfig) (s : PagState) (event : TimelineEvent)
    (em : String) : Bool :=
  match event.timestamp with
  | none => false
  | some ts => inWindowForStats cfg ts && includedEmojiHit cfg s event ts em

/-- Whether processing `event` from state `s` increments
`reactions_by_message tgt`. -/
def reactionTargetHit (cfg : PagConfig) (s : PagState) (event : TimelineEvent)
    (tgt : String) : Bool :=
  match event.timestamp with
  | none => false
  | some ts => inWindowForStats cfg ts && includedTargetHit cfg s event ts tgt

/-- Number of events in the list whose processing increments
`reactions_by_emoji em`, each judged against the state reached by folding the
events before it. -/
def countEmojiHits (cfg : PagConfig) (s : PagState) :
    List TimelineEvent → String → Nat
  | [], _ => 0
  | e :: es, em =>
    (if reactionEmojiHit cfg s e em then 1 else 0) +
      countEmojiHits cfg (processLoopEvent cfg s e) es em

/-- Number of events in the list whose processing increments
`reactions_by_message tgt`, each judged against the state reached by folding
the events before it. -/
def countTargetHits (cfg : PagConfig) (s : PagState) :
    List TimelineEvent → String → Nat
  | [], _ => 0
  | e :: es, tgt =>
    (if reactionTargetHit cfg s e tgt then 1 else 0) +
      countTargetHits cfg (processLoopEvent cfg s e) es tgt

/-- A concrete pagination configuration for counterexamples and witnesses:
window [1000, 2000], owner `@me:hs`, a constant local-bucket function. -/
def cfgSample : PagConfig :=
  { window_start_ts := some 1000
    window_end_ts := 2000
    user_id := "@me:hs"
    room_id := "!r:hs"
    localBuckets := fun _ =>
      some { year := "2025", month := "01", week := "2025-W01", weekday := "1",
             day := "2025-01-01", hour := "10" } }

/-- A bare event (no id, no payload) at a given timestamp. -/
def evAt (ts : Int) : TimelineEvent :=
  { event_id := none, timestamp := some ts, deserialized := none }

/-- A reaction at ts 1500 by another user, reacting with key `+1` to the
owner's message `m1`. -/
def evReaction : TimelineEvent :=
  { event_id := some "rx1"
    timestamp := some 1500
    deserialized := some { sender := "@bob:hs", kind := .reaction (some ("+1", "m1")) } }

/-- The owner's message `m1` at ts 1400. -/
def evOwnMessage : TimelineEvent :=
  { event_id := some "m1"
    timestamp := some 1400
    deserialized := some { sender := "@me:hs", kind := .roomMessage } }

/-- `RoomType` of the crawl module (DM / public / private). -/
inductive RoomType
  | dm
  | pub
  | priv
deriving Repr, DecidableEq

/-- `RoomStatsInput` of `src/stats_builder.rs`. -/
structure RoomStatsInput where
  room_id : String
  room_name : Option String
  room_type : RoomType
  stats : DetailedPaginationStats

/-- `CoverageBounds` of `src/stats_builder.rs` (its `active_dates` key set as
a duplicate-free list). -/
structure CoverageBounds where
  oldest_ts : Option Int
  newest_ts : Option Int
  active_dates : List String

/-- `HashMap::insert(date, true)` on the key set. -/
def insertKey (l : List String) (k : String) : List String :=
  if k ∈ l then l else k :: l

/-- `CoverageBounds::update_from` (`src/stats_builder.rs` lines 180-192). -/
def CoverageBounds.update_from (c : CoverageBounds) (other : DetailedPaginationStats) :
    CoverageBounds :=
  let c :=
    match other.oldest_ts with
    | some ts =>
      { c with oldest_ts := some (match c.oldest_ts with
          | some old => min old ts
          | none => ts) }
    | none => c
  let c :=
    match other.newest_ts with
    | some ts =>
      { c with newest_ts := some (match c.newest_ts with
          | some n => max n ts
          | none => ts) }
    | none => c
  { c with active_dates := other.active_dates.foldl insertKey c.active_dates }

/--
The coverage accumulation of the `build_stats` room loop
(`src/stats_builder.rs` lines 231-266): rooms whose `user_events` count is
zero are skipped entirely (the loop's `continue` fires before
`coverage.update_from` runs). Only the coverage slice of the loop is
modelled; the other accumulators of the loop do not feed back into it.
-/
def buildStatsCoverage (room_inputs : List RoomStatsInput) : CoverageBounds :=
  room_inputs.foldl
    (fun cov input =>
      if input.stats.user_events == 0 then cov
      else cov.update_from input.stats)
    { oldest_ts := none, newest_ts := none, active_dates := [] }

/--
`compute_coverage_bounds` (`src/stats_builder.rs` lines 543-575).
`localDay` models `Local.timestamp_millis_opt(ts).single()` followed by the
`%Y-%m-%d` format; `ws_from`/`ws_to` are the `%Y-%m-%d` renderings of
`window_scope.from` and `window_scope.to`.
-/
def compute_coverage_bounds (coverage : CoverageBounds) (localDay : Int → Option String)
    (ws_from ws_to : String) : String × String × Option Int :=
  let ft :=
    match coverage.oldest_ts, coverage.newest_ts with
    | some oldest, some newest =>
      ((localDay oldest).getD ws_from, (localDay newest).getD ws_to)
    | _, _ => (ws_from, ws_to)
  let days_active :=
    if coverage.active_dates.isEmpty then none else some coverage.active_dates.length
  (ft.1, ft.2, days_active)

/-- The coverage derivation the claim describes: MIN/MAX across the
timestamps of ALL rooms of the input, zero-user-message rooms included. -/
def claimCoverage (room_inputs : List RoomStatsInput) (localDay : Int → Option String)
    (ws_from ws_to : String) : String × String :=
  match sqlMin (room_inputs.filterMap fun i => i.stats.oldest_ts),
        sqlMax (room_inputs.filterMap fun i => i.stats.newest_ts) with
  | some o, some n => ((localDay o).getD ws_from, (localDay n).getD ws_to)
  | _, _ => (ws_from, ws_to)

/-- Sample: per-room statistics with timestamps but zero user messages. -/
def statsNoUserMessages : DetailedPaginationStats :=
  { (initialPagState none none).stats with
    oldest_ts := some 1111
    newest_ts := some 2222
    user_events := 0 }

/-- Sample room input carrying `statsNoUserMessages`. -/
def inputNoUserMessages : RoomStatsInput :=
  { room_id := "!a:hs", room_name := none, room_type := .priv,
    stats := statsNoUserMessages }

/-- A sample local-day rendering under which 1111 ms and 2222 ms both fall on
days of 1970, as any real time zone would place them. -/
def localDaySample : Int → Option String :=
  fun t => if t = 1111 then some "1970-01-01" else some "1970-01-02"

/--
Rust `Iterator::max_by_key` over the iteration sequence of a bucket map:
on ties the LAST maximal element wins (documented Rust behaviour).
-/
def rustMaxByKey (l : List (String × Int)) : Option (String × Int) :=
  l.foldl
    (fun acc x =>
      match acc with
      | none => some x
      | some a => if a.2 ≤ x.2 then some x else some a)
    none

/-- The peaks record `compute_peaks` produces: per family the peak key and
its count. -/
structure Peaks where
  year : Option (String × Int)
  month : Option (String × Int)
  week : Option (String × Int)
  day : Option (String × Int)
  hour : Option (String × Int)
deriving Repr, DecidableEq

/-- `compute_peaks` (`src/stats_builder.rs` lines 578-642) over the iteration
sequences of the five bucket maps (`HashMap` iteration order is arbitrary). -/
def compute_peaks (by_year by_month by_week by_day by_hour : List (String × Int)) :
    Option Peaks :=
  let peak_year := rustMaxByKey by_year
  let peak_month := rustMaxByKey by_month
  let peak_week := rustMaxByKey by_week
  let peak_day := rustMaxByKey by_day
  let peak_hour := rustMaxByKey by_hour
  if peak_year.isNone && peak_month.isNone && peak_week.isNone && peak_day.isNone &&
      peak_hour.isNone then
    none
  else
    some
      { year := peak_year
        month := peak_month
        week := peak_week
        day := peak_day
        hour := peak_hour }

/-- Lexicographic order on character lists by code point, the natural order
on string keys. -/
def charListLe : List Char → List Char → Bool
  | [], _ => true
  | _ :: _, [] => false
  | a :: as, b :: bs =>
    if a < b then true
    else if b < a then false
    else charListLe as bs

/-- The smaller of two keys in natural string order. -/
def strMinKey (a b : String) : String :=
  if charListLe a.data b.data then a else b

/-- The peak the claim describes: among the entries attaining the largest
count, the one with the smallest key in natural (string) order. -/
def smallestKeyPeak (l : List (String × Int)) : Option (String × Int) :=
  match sqlMax (l.map fun p => p.2) with
  | none => none
  | some m =>
    match (l.filter fun p => p.2 == m).map (fun p => p.1) with
    | [] => none
    | k :: ks => some (ks.foldl strMinKey k, m)

/-- Reference behaviour of one family's reported peak: `none` exactly on the
empty iteration sequence, otherwise the last entry attaining the maximal
count (everything before it counts at most as much, everything after it
strictly less). -/
def lastMaxSpec (l : List (String × Int)) : Option (String × Int) → Prop
  | none => l = []
  | some p =>
    ∃ l1 l2, l = l1 ++ p :: l2 ∧ (∀ q ∈ l1, q.2 ≤ p.2) ∧ (∀ q ∈ l2, q.2 < p.2)

/-- Reference behaviour of `compute_peaks`: `none` exactly when all five
sequences are empty, otherwise each family's peak is its last maximal
entry. -/
def peaksSpec (by_year by_month by_week by_day by_hour : List (String × Int)) :
    Option Peaks → Prop
  | none =>
    by_year = [] ∧ by_month = [] ∧ by_week = [] ∧ by_day = [] ∧ by_hour = []
  | some p =>
    lastMaxSpec by_year p.year ∧ lastMaxSpec by_month p.month ∧
      lastMaxSpec by_week p.week ∧ lastMaxSpec by_day p.day ∧
      lastMaxSpec by_hour p.hour

/-- Unicode White_Space test of Rust `char::is_whitespace` (used by
`str::trim` and chrono's numeric-item whitespace skipping). -/
def rustIsWhitespace (c : Char) : Bool :=
  c.toNat = 0x09 || c.toNat = 0x0A || c.toNat = 0x0B || c.toNat = 0x0C ||
    c.toNat = 0x0D || c.toNat = 0x20 || c.toNat = 0x85 || c.toNat = 0xA0 ||
    c.toNat = 0x1680 || (0x2000 ≤ c.toNat && c.toNat ≤ 0x200A) ||
    c.toNat = 0x2028 || c.toNat = 0x2029 || c.toNat = 0x202F ||
    c.toNat = 0x205F || c.toNat = 0x3000

/-- Drop leading whitespace. -/
def trimLeft : List Char → List Char
  | [] => []
  | c :: cs => if rustIsWhitespace c then trimLeft cs else c :: cs

/-- Drop trailing whitespace. -/
def trimRight (cs : List Char) : List Char :=
  (trimLeft cs.reverse).reverse

/-- Rust `str::trim`. -/
def trim (cs : List Char) : List Char :=
  trimRight (trimLeft cs)

/-- Numeric value of a digit string (most significant first). -/
def digitsVal (ds : List Char) : Nat :=
  ds.foldl (fun n c => n * 10 + (c.toNat - 48)) 0

/-- Rust `char::is_ascii_digit`. -/
def isAsciiDigit (c : Char) : Bool :=
  48 ≤ c.toNat && c.toNat ≤ 57

/-- The digit part of Rust integer parsing: one or more ASCII digits with
the value within `bound`. -/
def rustParseDigits (ds : List Char) (bound : Nat) : Option Nat :=
  if ds ≠ [] ∧ (∀ c ∈ ds, isAsciiDigit c = true) ∧ digitsVal ds ≤ bound then
    some (digitsVal ds)
  else none

/-- Rust `u32::from_str`: an optional `+` sign followed by one or more ASCII
digits whose value fits in 32 bits (`-` always fails for unsigned types). -/
def rust_parse_u32 (cs : List Char) : Option Nat :=
  let ds := if cs.head? = some '+' then cs.tail else cs
  rustParseDigits ds (2 ^ 32 - 1)

/-- Rust `i32::from_str`: an optional `+`/`-` sign followed by one or more
ASCII digits, with the signed value fitting in `i32`. -/
def rust_parse_i32 (cs : List Char) : Option Int :=
  if cs.head? = some '+' then
    (rustParseDigits cs.tail (2 ^ 31 - 1)).map Int.ofNat
  else if cs.head? = some '-' then
    (rustParseDigits cs.tail (2 ^ 31)).map (fun n => -(Int.ofNat n))
  else
    (rustParseDigits cs (2 ^ 31 - 1)).map Int.ofNat

/-- A proleptic Gregorian calendar date (chrono `NaiveDate` as year, month,
day). -/
structure Date where
  year : Int
  month : Nat
  day : Nat
deriving Repr, DecidableEq

/-- Gregorian leap-year test. -/
def isLeapYear (y : Int) : Bool :=
  y % 4 = 0 && (y % 100 ≠ 0 || y % 400 = 0)

/-- Days in a month of the proleptic Gregorian calendar (0 for an invalid
month number). -/
def daysInMonth (y : Int) (m : Nat) : Nat :=
  match m with
  | 1 => 31
  | 2 => if isLeapYear y then 29 else 28
  | 3 => 31
  | 4 => 30
  | 5 => 31
  | 6 => 30
  | 7 => 31
  | 8 => 31
  | 9 => 30
  | 10 => 31
  | 11 => 30
  | 12 => 31
  | _ => 0

/-- chrono `NaiveDate::from_ymd_opt`: validity check including chrono's year
range (`i32::MIN >> 13` to `i32::MAX >> 13`). -/
def from_ymd_opt (y : Int) (m d : Nat) : Option Date :=
  if -262144 ≤ y ∧ y ≤ 262143 ∧ 1 ≤ m ∧ m ≤ 12 ∧ 1 ≤ d ∧ d ≤ daysInMonth y m then
    some ⟨y, m, d⟩
  else none

/-- Days since 1970-01-01 of a date (Howard Hinnant's `days_from_civil`,
with floor division). -/
def Date.toDays (dt : Date) : Int :=
  let y : Int := if dt.month ≤ 2 then dt.year - 1 else dt.year
  let m : Int := dt.month
  let d : Int := dt.day
  let era : Int := Int.fdiv y 400
  let yoe : Int := y - era * 400
  let doy : Int := Int.fdiv (153 * (m + (if 2 < dt.month then -3 else 9)) + 2) 5 + d - 1
  let doe : Int := yoe * 365 + Int.fdiv yoe 4 - Int.fdiv yoe 100 + doy
  era * 146097 + doe - 719468

/-- Date at a given number of days since 1970-01-01 (Hinnant's
`civil_from_days`). -/
def dateFromDays (z0 : Int) : Date :=
  let z := z0 + 719468
  let era : Int := Int.fdiv z 146097
  let doe : Int := z - era * 146097
  let yoe : Int :=
    Int.fdiv (doe - Int.fdiv doe 1460 + Int.fdiv doe 36524 - Int.fdiv doe 146096) 365
  let y : Int := yoe + era * 400
  let doy : Int := doe - (365 * yoe + Int.fdiv yoe 4 - Int.fdiv yoe 100)
  let mp : Int := Int.fdiv (5 * doy + 2) 153
  let d : Int := doy - Int.fdiv (153 * mp + 2) 5 + 1
  let m : Int := if mp < 10 then mp + 3 else mp - 9
  { year := if m ≤ 2 then y + 1 else y, month := m.toNat, day := d.toNat }

/-- chrono date plus/minus a `Duration` of days. -/
def addDays (dt : Date) (n : Int) : Date :=
  dateFromDays (dt.toDays + n)

/-- chrono `Weekday::number_from_monday` of a date (Monday 1 .. Sunday 7);
1970-01-01 was a Thursday. -/
def weekday_number_from_monday (dt : Date) : Int :=
  Int.emod (dt.toDays + 3) 7 + 1

/-- chrono `scan::number` after the first digit: consume up to `maxw` more
digits greedily, accumulating onto `acc`. -/
def scanNumAux (maxw : Nat) (acc : Nat) : List Char → Nat × List Char
  | [] => (acc, [])
  | c :: cs =>
    if 0 < maxw ∧ isAsciiDigit c = true then
      scanNumAux (maxw - 1) (acc * 10 + (c.toNat - 48)) cs
    else (acc, c :: cs)

/-- chrono `scan::number(s, 1, maxw)`: at least one and at most `maxw` ASCII
digits, greedy, returning the value and the rest. (chrono errors on i64
overflow; the model's unbounded value then fails the i32 fit check of
`Parsed::set_year`, giving the same overall failure.) -/
def scanNum (maxw : Nat) (cs : List Char) : Option (Nat × List Char) :=
  match cs with
  | [] => none
  | c :: cs' =>
    if isAsciiDigit c then some (scanNumAux (maxw - 1) (c.toNat - 48) cs') else none

/--
chrono `NaiveDate::parse_from_str(s, "%Y-%m-%d")`: `%Y` skips leading
whitespace, then an optionally signed number (at most 4 digits when
unsigned, unlimited when signed, then required to fit in `i32` by
`Parsed::set_year`); each literal `-` must match exactly; `%m` and `%d` skip
leading whitespace and read 1-2 digits; the whole input must be consumed;
the resolved triple must be a valid `NaiveDate`.
-/
def chronoParseYmd (cs0 : List Char) : Option Date :=
  let cs := trimLeft cs0
  let yearRes : Option (Int × List Char) :=
    if cs.head? = some '-' then
      (scanNum cs.tail.length cs.tail).map (fun p => (-(p.1 : Int), p.2))
    else if cs.head? = some '+' then
      (scanNum cs.tail.length cs.tail).map (fun p => ((p.1 : Int), p.2))
    else
      (scanNum 4 cs).map (fun p => ((p.1 : Int), p.2))
  match yearRes with
  | none => none
  | some (y, rest) =>
    if y < -(2 ^ 31) ∨ 2 ^ 31 - 1 < y then none
    else if rest.head? = some '-' then
      match scanNum 2 (trimLeft rest.tail) with
      | none => none
      | some (m, rest2) =>
        if rest2.head? = some '-' then
          match scanNum 2 (trimLeft rest2.tail) with
          | none => none
          | some (d, rest3) =>
            if rest3 = [] then from_ymd_opt y m d else none
        else none
    else none

/-- `ScopeKind` of `src/stats.rs` as used by the window parser. -/
inductive ScopeKind
  | year
  | month
  | week
  | day
  | life
deriving Repr, DecidableEq

/-- `WindowScope` of `src/window.rs` (its `from`/`to` dates are named
`fromDate`/`toDate` here because `from` is a Lean keyword). -/
structure WindowScope where
  key : List Char
  scope_type : ScopeKind
  fromDate : Date
  toDate : Date
deriving Repr, DecidableEq

/-- Rust `str::split_once('-')`: split around the first occurrence. -/
def splitOnce (sep : Char) : List Char → Option (List Char × List Char)
  | [] => none
  | c :: cs =>
    if c = sep then some ([], cs)
    else (splitOnce sep cs).map (fun p => (c :: p.1, p.2))

/-- `window.find("-W")` as a split around the first occurrence of `-W`. -/
def splitDashW : List Char → Option (List Char × List Char)
  | [] => none
  | c :: rest =>
    if c = '-' ∧ rest.head? = some 'W' then some ([], rest.tail)
    else (splitDashW rest).map (fun p => (c :: p.1, p.2))

/-- The day branch of `WindowScope::parse`: try `%Y-%m-%d`, else the final
invalid-window error. -/
def dayBranch (window : List Char) : Option WindowScope :=
  match chronoParseYmd window with
  | some date =>
    some { key := window, scope_type := .day, fromDate := date, toDate := date }
  | none => none

/-- The ISO-week branch of `WindowScope::parse`: on a `-W` split with both
parts parsing and in range the branch commits (a failing year check is the
source's early `Err` return), otherwise control falls through to the day
branch. -/
def weekBranch (window : List Char) : Option WindowScope :=
  match splitDashW window with
  | some (year_str, week_str) =>
    match rust_parse_i32 year_str, rust_parse_u32 week_str with
    | some year, some week =>
      if 1970 ≤ year ∧ year ≤ 2099 ∧ 1 ≤ week ∧ week ≤ 53 then
        match from_ymd_opt year 1 4 with
        | none => none
        | some jan_4 =>
          let week_1_monday := addDays jan_4 (-(weekday_number_from_monday jan_4 - 1))
          let fromD := addDays week_1_monday (((week : Int) - 1) * 7)
          let toD := addDays fromD 6
          if fromD.year ≠ year ∧ toD.year ≠ year then none
          else
            some { key := window, scope_type := .week, fromDate := fromD, toDate := toD }
      else weekBranch.fallthrough window
    | _, _ => weekBranch.fallthrough window
  | none => weekBranch.fallthrough window
where fallthrough (window : List Char) : Option WindowScope := dayBranch window

/-- The month branch of `WindowScope::parse`: on a first-dash split with both
parts parsing and in range the branch commits, otherwise control falls
through to the week branch. -/
def monthBranch (window : List Char) : Option WindowScope :=
  match splitOnce '-' window with
  | some (year_str, month_str) =>
    match rust_parse_i32 year_str, rust_parse_u32 month_str with
    | some year, some month =>
      if 1970 ≤ year ∧ year ≤ 2099 ∧ 1 ≤ month ∧ month ≤ 12 then
        match from_ymd_opt year month 1 with
        | none => none
        | some f =>
          match
            if month = 12 then (from_ymd_opt (year + 1) 1 1).map (fun d => addDays d (-1))
            else (from_ymd_opt year (month + 1) 1).map (fun d => addDays d (-1)) with
          | some t =>
            some { key := window, scope_type := .month, fromDate := f, toDate := t }
          | none => none
      else monthBranch.fallthrough window
    | _, _ => monthBranch.fallthrough window
  | none => monthBranch.fallthrough window
where fallthrough (window : List Char) : Option WindowScope := weekBranch window

/--
`WindowScope::parse` (`src/window.rs` lines 31-133) over the characters of
the input. `today` models `Local::now().naive_utc().date()` used by the
`life` branch. Errors are `none`.
-/
def WindowScope.parse (today : Date) (window : List Char) : Option WindowScope :=
  let window := trim window
  if window = "life".toList then
    some { key := window, scope_type := .life,
           fromDate := { year := 1970, month := 1, day := 1 }, toDate := today }
  else
    match rust_parse_i32 window with
    | some year =>
      if 1970 ≤ year ∧ year ≤ 2099 then
        match from_ymd_opt year 1 1, from_ymd_opt year 12 31 with
        | some f, some t =>
          some { key := window, scope_type := .year, fromDate := f, toDate := t }
        | _, _ => none
      else monthBranch window
    | none => monthBranch window

/-- The year-form acceptance of the amended claim: the trimmed input parses
as a Rust i32 in 1970-2099. -/
def yearAcceptB (w : List Char) : Bool :=
  match rust_parse_i32 w with
  | some y => decide (1970 ≤ y ∧ y ≤ 2099)
  | none => false

/-- The month-form acceptance of the amended claim: split at the first dash,
a Rust i32 year 1970-2099 and a Rust u32 month 1-12. -/
def monthAcceptB (w : List Char) : Bool :=
  match splitOnce '-' w with
  | some (ys, ms) =>
    match rust_parse_i32 ys, rust_parse_u32 ms with
    | some y, some m => decide (1970 ≤ y ∧ y ≤ 2099 ∧ 1 ≤ m ∧ m ≤ 12)
    | _, _ => false
  | none => false

/-- The week-form acceptance of the amended claim: split at the first `-W`,
a Rust i32 year 1970-2099, a Rust u32 week 1-53, and the computed Monday or
Sunday falling in the requested calendar year. -/
def weekAcceptB (w : List Char) : Bool :=
  match splitDashW w with
  | some (ys, ws) =>
    match rust_parse_i32 ys, rust_parse_u32 ws with
    | some y, some wk =>
      decide (1970 ≤ y ∧ y ≤ 2099 ∧ 1 ≤ wk ∧ wk ≤ 53) &&
        match from_ymd_opt y 1 4 with
        | some jan_4 =>
          let monday := addDays jan_4 (-(weekday_number_from_monday jan_4 - 1))
          let f := addDays monday (((wk : Int) - 1) * 7)
          let t := addDays f 6
          decide (f.year = y ∨ t.year = y)
        | none => false
    | _, _ => false
  | none => false

/-- The acceptance predicate of the amended claim C6: after trimming, the
literal `life`, a year form, a month form, a week form, or a chrono
`%Y-%m-%d` day. -/
def acceptedAmendedB (window : List Char) : Bool :=
  let w := trim window
  w == "life".toList || yearAcceptB w || monthAcceptB w || weekAcceptB w ||
    (chronoParseYmd w).isSome

/-- The ISO week-year of the Monday starting an ISO week (the calendar year
of that week's Thursday). -/
def isoWeekYearOfMonday (monday : Date) : Int :=
  (addDays monday 3).year

/-- The five-regex-forms predicate stated by claim C6: exactly four digits
(year, in range), `dddd-dd` (month 1-12), `dddd-Wdd` (week 1-53 lying in the
requested ISO year), `dddd-dd-dd` (a valid calendar day), or `life`, after
trimming. -/
def claimFiveFormsB (window : List Char) : Bool :=
  let w := trim window
  w == "life".toList ||
  (match w with
   | [a, b, c, d] =>
     isAsciiDigit a && isAsciiDigit b && isAsciiDigit c && isAsciiDigit d &&
       decide (1970 ≤ digitsVal [a, b, c, d] ∧ digitsVal [a, b, c, d] ≤ 2099)
   | _ => false) ||
  (match w with
   | [a, b, c, d, '-', e, f] =>
     isAsciiDigit a && isAsciiDigit b && isAsciiDigit c && isAsciiDigit d &&
       isAsciiDigit e && isAsciiDigit f &&
       decide (1 ≤ digitsVal [e, f] ∧ digitsVal [e, f] ≤ 12)
   | _ => false) ||
  (match w with
   | [a, b, c, d, '-', 'W', e, f] =>
     isAsciiDigit a && isAsciiDigit b && isAsciiDigit c && isAsciiDigit d &&
       isAsciiDigit e && isAsciiDigit f &&
       decide (1 ≤ digitsVal [e, f] ∧ digitsVal [e, f] ≤ 53) &&
       (match from_ymd_opt (digitsVal [a, b, c, d] : Int) 1 4 with
        | some jan_4 =>
          let monday := addDays jan_4 (-(weekday_number_from_monday jan_4 - 1))
          let f' := addDays monday (((digitsVal [e, f] : Int) - 1) * 7)
          decide (isoWeekYearOfMonday f' = (digitsVal [a, b, c, d] : Int))
        | none => false)
   | _ => false) ||
  (match w with
   | [a, b, c, d, '-', e, f, '-', g, h] =>
     isAsciiDigit a && isAsciiDigit b && isAsciiDigit c && isAsciiDigit d &&
       isAsciiDigit e && isAsciiDigit f && isAsciiDigit g && isAsciiDigit h &&
       (from_ymd_opt (digitsVal [a, b, c, d] : Int) (digitsVal [e, f])
         (digitsVal [g, h])).isSome
   | _ => false)

/-! ### Theorems -/

theorem sqlMax_eq_none_iff (l : List Int) : sqlMax l = none ↔ l = [] := by
  cases l with
  | nil => simp [sqlMax]
  | cons x xs =>
    simp only [sqlMax]
    cases sqlMax xs <;> simp

theorem sqlMax_spec {l : List Int} {v : Int} (h : sqlMax l = some v) :
    v ∈ l ∧ ∀ x ∈ l, x ≤ v := by
  induction l generalizing v with
  | nil => simp [sqlMax] at h
  | cons x xs ih =>
    simp only [sqlMax] at h
    cases hx : sqlMax xs with
    | none =>
      rw [hx] at h
      obtain rfl : x = v := by simpa using h
      have hnil : xs = [] := (sqlMax_eq_none_iff xs).mp hx
      subst hnil
      simp
    | some m =>
      rw [hx] at h
      obtain rfl : max x m = v := by simpa using h
      obtain ⟨hm, hle⟩ := ih hx
      refine ⟨?_, ?_⟩
      · rcases max_cases x m with ⟨he, _⟩ | ⟨he, _⟩
        · rw [he]; exact List.mem_cons_self x xs
        · rw [he]; exact List.mem_cons_of_mem x hm
      · intro y hy
        rcases List.mem_cons.mp hy with rfl | hy'
        · exact le_max_left _ _
        · exact (hle y hy').trans (le_max_right _ _)

theorem sqlMin_eq_none_iff (l : List Int) : sqlMin l = none ↔ l = [] := by
  cases l with
  | nil => simp [sqlMin]
  | cons x xs =>
    simp only [sqlMin]
    cases sqlMin xs <;> simp

theorem sqlMin_spec {l : List Int} {v : Int} (h : sqlMin l = some v) :
    v ∈ l ∧ ∀ x ∈ l, v ≤ x := by
  induction l generalizing v with
  | nil => simp [sqlMin] at h
  | cons x xs ih =>
    simp only [sqlMin] at h
    cases hx : sqlMin xs with
    | none =>
      rw [hx] at h
      obtain rfl : x = v := by simpa using h
      have hnil : xs = [] := (sqlMin_eq_none_iff xs).mp hx
      subst hnil
      simp
    | some m =>
      rw [hx] at h
      obtain rfl : min x m = v := by simpa using h
      obtain ⟨hm, hle⟩ := ih hx
      refine ⟨?_, ?_⟩
      · rcases min_cases x m with ⟨he, _⟩ | ⟨he, _⟩
        · rw [he]; exact List.mem_cons_self x xs
        · rw [he]; exact List.mem_cons_of_mem x hm
      · intro y hy
        rcases List.mem_cons.mp hy with rfl | hy'
        · exact min_le_left _ _
        · exact (min_le_right x m).trans (hle y hy')

/--
C5 counterexample: a store with one row that is not fully crawled but has no
stored `oldest_event_ts` (such rows are created by `set_crawl_status` and
`update_max_event_counts` upserts). `get_time_window` returns
`window_start = none` although not every room row has `fully_crawled = true`,
so the claim's "window_start = None if and only if every room row has
fully_crawled = true" fails at this state.
-/
theorem time_window_none_start_counterexample :
    CrawlDb.get_time_window [{ fully_crawled := false }] =
      some { window_start := none, window_end := none, account_creation_ts := none } ∧
    ({ fully_crawled := false } : RoomCrawlMetadata).fully_crawled = false :=
  ⟨rfl, rfl⟩

/--
C5 (amended): for every store state with at least one room row,
`get_time_window` returns a `TimeWindow` in which `window_start` is `None`
iff every row is fully crawled or lacks an `oldest_event_ts` (in particular
when all rows are fully crawled), and otherwise is the maximum
`oldest_event_ts` over the non-fully-crawled rows that have one;
`window_end` is the maximum `newest_event_ts` over all rows that have one,
and `account_creation_ts` the minimum `oldest_event_ts` over all rows that
have one (`None` when no row has one).
-/
theorem get_time_window_characterization (rows : List RoomCrawlMetadata)
    (hne : rows ≠ []) :
    ∃ tw, CrawlDb.get_time_window rows = some tw ∧
      (tw.window_start = none ↔
        ∀ r ∈ rows, r.fully_crawled = true ∨ r.oldest_event_ts = none) ∧
      (∀ v, tw.window_start = some v →
        (∃ r ∈ rows, r.fully_crawled = false ∧ r.oldest_event_ts = some v) ∧
        ∀ r ∈ rows, r.fully_crawled = false → ∀ t, r.oldest_event_ts = some t → t ≤ v) ∧
      (tw.window_end = none ↔ ∀ r ∈ rows, r.newest_event_ts = none) ∧
      (∀ v, tw.window_end = some v →
        (∃ r ∈ rows, r.newest_event_ts = some v) ∧
        ∀ r ∈ rows, ∀ t, r.newest_event_ts = some t → t ≤ v) ∧
      (tw.account_creation_ts = none ↔ ∀ r ∈ rows, r.oldest_event_ts = none) ∧
      (∀ v, tw.account_creation_ts = some v →
        (∃ r ∈ rows, r.oldest_event_ts = some v) ∧
        ∀ r ∈ rows, ∀ t, r.oldest_event_ts = some t → v ≤ t) := by
  have hempty : rows.isEmpty = false := by
    cases rows with
    | nil => exact absurd rfl hne
    | cons a l => rfl
  rw [CrawlDb.get_time_window, hempty]
  simp only [Bool.false_eq_true, if_false]
  refine ⟨_, rfl, ?_, ?_, ?_, ?_, ?_, ?_⟩
  · constructor
    · intro h r hr
      by_cases hfc : r.fully_crawled = true
      · exact Or.inl hfc
      · refine Or.inr ?_
        have hrf : r ∈ rows.filter (fun r => !r.fully_crawled) := by
          simp [List.mem_filter, hr, hfc]
        by_cases hfilter : (rows.filter (fun r => !r.fully_crawled)).isEmpty
        · rw [List.isEmpty_iff] at hfilter
          rw [hfilter] at hrf
          exact absurd hrf (List.not_mem_nil r)
        · simp only [hfilter, Bool.false_eq_true, if_false] at h
          have := (sqlMax_eq_none_iff _).mp h
          have := List.filterMap_eq_nil.mp this
          exact this r hrf
    · intro h
      by_cases hfilter : (rows.filter (fun r => !r.fully_crawled)).isEmpty
      · simp [hfilter]
      · simp only [hfilter, Bool.false_eq_true, if_false]
        rw [sqlMax_eq_none_iff, List.filterMap_eq_nil]
        intro r hr
        rw [List.mem_filter] at hr
        rcases h r hr.1 with hfc | hnone
        · rw [hfc] at hr
          simp at hr
        · exact hnone
  · intro v hv
    by_cases hfilter : (rows.filter (fun r => !r.fully_crawled)).isEmpty
    · simp [hfilter] at hv
    · simp only [hfilter, Bool.false_eq_true, if_false] at hv
      obtain ⟨hmem, hub⟩ := sqlMax_spec hv
      constructor
      · rw [List.mem_filterMap] at hmem
        obtain ⟨r, hr, hts⟩ := hmem
        rw [List.mem_filter] at hr
        exact ⟨r, hr.1, by simpa using hr.2, hts⟩
      · intro r hr hfc t ht
        refine hub t ?_
        rw [List.mem_filterMap]
        exact ⟨r, by simp [List.mem_filter, hr, hfc], ht⟩
  · rw [sqlMax_eq_none_iff, List.filterMap_eq_nil]
  · intro v hv
    obtain ⟨hmem, hub⟩ := sqlMax_spec hv
    constructor
    · rw [List.mem_filterMap] at hmem
      exact hmem
    · intro r hr t ht
      exact hub t (List.mem_filterMap.mpr ⟨r, hr, ht⟩)
  · rw [sqlMin_eq_none_iff, List.filterMap_eq_nil]
  · intro v hv
    obtain ⟨hmem, hlb⟩ := sqlMin_spec hv
    constructor
    · rw [List.mem_filterMap] at hmem
      exact hmem
    · intro r hr t ht
      exact hlb t (List.mem_filterMap.mpr ⟨r, hr, ht⟩)

/--
Witness for the C5 theorem at a concrete one-row store (not fully crawled,
oldest 5, newest 7).
-/
theorem get_time_window_characterization_witness :
    ∃ tw, CrawlDb.get_time_window [twRow] = some tw ∧
      (tw.window_start = none ↔
        ∀ r ∈ [twRow], r.fully_crawled = true ∨ r.oldest_event_ts = none) ∧
      (∀ v, tw.window_start = some v →
        (∃ r ∈ [twRow], r.fully_crawled = false ∧ r.oldest_event_ts = some v) ∧
        ∀ r ∈ [twRow], r.fully_crawled = false → ∀ t, r.oldest_event_ts = some t → t ≤ v) ∧
      (tw.window_end = none ↔ ∀ r ∈ [twRow], r.newest_event_ts = none) ∧
      (∀ v, tw.window_end = some v →
        (∃ r ∈ [twRow], r.newest_event_ts = some v) ∧
        ∀ r ∈ [twRow], ∀ t, r.newest_event_ts = some t → t ≤ v) ∧
      (tw.account_creation_ts = none ↔ ∀ r ∈ [twRow], r.oldest_event_ts = none) ∧
      (∀ v, tw.account_creation_ts = some v →
        (∃ r ∈ [twRow], r.oldest_event_ts = some v) ∧
        ∀ r ∈ [twRow], ∀ t, r.oldest_event_ts = some t → v ≤ t) :=
  get_time_window_characterization [twRow] (List.cons_ne_nil _ _)

/--
C1: the crawl-decision evaluator `should_crawl_room` equals the reference
decision function written from the spec, for every stored record, window and
freshness hint.
-/
theorem should_crawl_room_matches_spec (metadata : Option RoomCrawlMetadata)
    (window_start_ts : Option Int) (window_end_ts : Int)
    (latest_event : Option (String × Int)) :
    Decision.should_crawl_room metadata window_start_ts window_end_ts latest_event =
      specDecision metadata window_start_ts window_end_ts latest_event := by
  cases metadata with
  | none =>
    cases latest_event with
    | none => rfl
    | some le =>
      cases window_start_ts <;> rfl
  | some meta =>
    cases latest_event with
    | none => rfl
    | some le => rfl

theorem rowMonotone_refl (s : Option RoomCrawlMetadata) : rowMonotone s s := by
  intro r h
  exact ⟨r, h, fun o ho => ⟨o, ho, le_refl o⟩, fun n hn => ⟨n, hn, le_refl n⟩,
    fun hf => hf, le_refl _, le_refl _⟩

theorem rowMonotone_trans {s t u : Option RoomCrawlMetadata}
    (h1 : rowMonotone s t) (h2 : rowMonotone t u) : rowMonotone s u := by
  intro r hs
  obtain ⟨r1, ht, ho1, hn1, hf1, hte1, hue1⟩ := h1 r hs
  obtain ⟨r2, hu, ho2, hn2, hf2, hte2, hue2⟩ := h2 r1 ht
  refine ⟨r2, hu, ?_, ?_, fun h => hf2 (hf1 h), hte1.trans hte2, hue1.trans hue2⟩
  · intro o ho
    obtain ⟨o1, e1, le1⟩ := ho1 o ho
    obtain ⟨o2, e2, le2⟩ := ho2 o1 e1
    exact ⟨o2, e2, le2.trans le1⟩
  · intro n hn
    obtain ⟨n1, e1, le1⟩ := hn1 n hn
    obtain ⟨n2, e2, le2⟩ := hn2 n1 e1
    exact ⟨n2, e2, le1.trans le2⟩

theorem applyOp_monotone (row : Option RoomCrawlMetadata) (op : StoreOp) :
    rowMonotone row (some (applyOp row op)) := by
  intro r hrow
  subst hrow
  cases op with
  | updateMeta oid ots nid nts fc =>
    refine ⟨_, rfl, ?_, ?_, ?_, ?_, ?_⟩
    · intro o ho
      cases ots with
      | none =>
        exact ⟨o, by simp [applyOp, CrawlDb.update_room_metadata, ho], le_refl o⟩
      | some ts =>
        exact ⟨min ts o, by simp [applyOp, CrawlDb.update_room_metadata, ho],
          min_le_right ts o⟩
    · intro n hn
      cases nts with
      | none =>
        exact ⟨n, by simp [applyOp, CrawlDb.update_room_metadata, hn], le_refl n⟩
      | some ts =>
        exact ⟨max ts n, by simp [applyOp, CrawlDb.update_room_metadata, hn],
          le_max_right ts n⟩
    · intro hf
      simp [applyOp, CrawlDb.update_room_metadata, hf]
    · simp [applyOp, CrawlDb.update_room_metadata]
    · simp [applyOp, CrawlDb.update_room_metadata]
  | setStatus st =>
    refine ⟨_, rfl, ?_, ?_, ?_, ?_, ?_⟩
    · intro o ho
      exact ⟨o, by simp [applyOp, CrawlDb.set_crawl_status, ho], le_refl o⟩
    · intro n hn
      exact ⟨n, by simp [applyOp, CrawlDb.set_crawl_status, hn], le_refl n⟩
    · intro hf
      simp [applyOp, CrawlDb.set_crawl_status, hf]
    · simp [applyOp, CrawlDb.set_crawl_status]
    · simp [applyOp, CrawlDb.set_crawl_status]
  | updateCounts t u =>
    refine ⟨_, rfl, ?_, ?_, ?_, ?_, ?_⟩
    · intro o ho
      exact ⟨o, by simp [applyOp, CrawlDb.update_max_event_counts, ho], le_refl o⟩
    · intro n hn
      exact ⟨n, by simp [applyOp, CrawlDb.update_max_event_counts, hn], le_refl n⟩
    · intro hf
      simp [applyOp, CrawlDb.update_max_event_counts, hf]
    · simp [applyOp, CrawlDb.update_max_event_counts]
    · simp [applyOp, CrawlDb.update_max_event_counts]

theorem applyOps_monotone (row : Option RoomCrawlMetadata) (ops : List StoreOp) :
    rowMonotone row (applyOps row ops) := by
  induction ops generalizing row with
  | nil => exact rowMonotone_refl row
  | cons op ops ih =>
    exact rowMonotone_trans (applyOp_monotone row op) (ih (some (applyOp row op)))

theorem applyOps_append (row : Option RoomCrawlMetadata) (l1 l2 : List StoreOp) :
    applyOps row (l1 ++ l2) = applyOps (applyOps row l1) l2 := by
  induction l1 generalizing row with
  | nil => rfl
  | cons op ops ih => simpa [applyOps] using ih (some (applyOp row op))

/--
C3: across any sequence of store operations on a room's row and any two
intermediate states of that run, `oldest_event_ts` never increases once
present, `newest_event_ts` never decreases once present, `fully_crawled`
never reverts from true to false, and `total_events_fetched` and
`user_events_fetched` never decrease.
-/
theorem store_ops_monotone (row : Option RoomCrawlMetadata) (ops1 ops2 : List StoreOp) :
    rowMonotone (applyOps row ops1) (applyOps row (ops1 ++ ops2)) := by
  rw [applyOps_append]
  exact applyOps_monotone _ _

/--
C2 counterexample: on an existing row carrying `oldest_event_id = some "a"`
and `oldest_event_ts = some 100`, a merge whose `oldest_event_ts` argument is
absent but whose `oldest_event_id` argument is `some "b"` still replaces the
id field. The claim's "an id field is replaced only when the corresponding
timestamp argument is present" is therefore false at this input.
-/
theorem update_replaces_id_without_ts :
    (CrawlDb.update_room_metadata
        (some { oldest_event_id := some "a", oldest_event_ts := some 100 })
        (some "b") none none none false).oldest_event_id = some "b" ∧
    (CrawlDb.update_room_metadata
        (some { oldest_event_id := some "a", oldest_event_ts := some 100 })
        (some "b") none none none false).oldest_event_ts = some 100 :=
  ⟨rfl, rfl⟩

/--
C2 (amended): on an existing row, each id field is replaced exactly when the
corresponding id argument is present (not the timestamp argument); the stored
extrema become the MIN of old and new oldest timestamps and the MAX of old
and new newest timestamps (the present one when only one is present);
`fully_crawled` becomes the OR of old and new; counters and status columns
are untouched.
-/
theorem update_room_metadata_merge (r : RoomCrawlMetadata)
    (oid : Option String) (ots : Option Int) (nid : Option String) (nts : Option Int)
    (fc : Bool) :
    (CrawlDb.update_room_metadata (some r) oid ots nid nts fc).oldest_event_id
        = (if oid.isSome then oid else r.oldest_event_id) ∧
    (CrawlDb.update_room_metadata (some r) oid ots nid nts fc).newest_event_id
        = (if nid.isSome then nid else r.newest_event_id) ∧
    (CrawlDb.update_room_metadata (some r) oid ots nid nts fc).oldest_event_ts
        = optMinMerge ots r.oldest_event_ts ∧
    (CrawlDb.update_room_metadata (some r) oid ots nid nts fc).newest_event_ts
        = optMaxMerge nts r.newest_event_ts ∧
    (CrawlDb.update_room_metadata (some r) oid ots nid nts fc).fully_crawled
        = (r.fully_crawled || fc) ∧
    (CrawlDb.update_room_metadata (some r) oid ots nid nts fc).total_events_fetched
        = r.total_events_fetched ∧
    (CrawlDb.update_room_metadata (some r) oid ots nid nts fc).user_events_fetched
        = r.user_events_fetched := by
  obtain ⟨a, b, c, d, e, f, g, h, i⟩ := r
  cases oid <;> cases ots <;> cases nid <;> cases nts <;> cases b <;> cases d <;>
    simp [CrawlDb.update_room_metadata, optMinMerge, optMaxMerge]

/--
C10: the two implementations of the crawl decision function, in the legacy
module `crawl.rs` and in `crawl/decision.rs`, are extensionally equal.
-/
theorem legacy_decision_extensionally_equal (metadata : Option RoomCrawlMetadata)
    (window_start_ts : Option Int) (window_end_ts : Int)
    (latest_event : Option (String × Int)) :
    Crawl.should_crawl_room metadata window_start_ts window_end_ts latest_event =
      Decision.should_crawl_room metadata window_start_ts window_end_ts latest_event := rfl

theorem updateExtrema_reactions_by_emoji (stats : DetailedPaginationStats)
    (eid : Option String) (ts : Int) :
    (updateExtrema stats eid ts).reactions_by_emoji = stats.reactions_by_emoji := by
  simp only [updateExtrema]
  split <;> split <;> rfl

theorem updateExtrema_reactions_by_message (stats : DetailedPaginationStats)
    (eid : Option String) (ts : Int) :
    (updateExtrema stats eid ts).reactions_by_message = stats.reactions_by_message := by
  simp only [updateExtrema]
  split <;> split <;> rfl

theorem updateExtrema_user_message_ids (stats : DetailedPaginationStats)
    (eid : Option String) (ts : Int) :
    (updateExtrema stats eid ts).user_message_ids = stats.user_message_ids := by
  simp only [updateExtrema]
  split <;> split <;> rfl

theorem processIncludedEvent_stop (cfg : PagConfig) (s : PagState) (e : TimelineEvent)
    (ts : Int) : (processIncludedEvent cfg s e ts).stop_at_window = s.stop_at_window := by
  simp only [processIncludedEvent]
  repeat' split
  all_goals rfl

theorem processLoopEvent_stop (cfg : PagConfig) (s : PagState) (e : TimelineEvent) :
    (processLoopEvent cfg s e).stop_at_window =
      (s.stop_at_window ||
        match cfg.window_start_ts, e.timestamp with
        | some start, some t => decide (t < start)
        | _, _ => false) := by
  cases ht : e.timestamp with
  | none =>
    cases cfg.window_start_ts <;> simp [processLoopEvent, ht]
  | some ts =>
    simp only [processLoopEvent, ht]
    cases hw : cfg.window_start_ts with
    | none =>
      dsimp only
      split
      · simp_all
      · split
        · simp
        · simp [processIncludedEvent_stop]
    | some start =>
      dsimp only
      split
      · simp_all
      · split
        · simp_all
        · simp_all [processIncludedEvent_stop]

theorem processBatchEvents_stop_mono (cfg : PagConfig) (s : PagState)
    (es : List TimelineEvent) (h : s.stop_at_window = true) :
    (processBatchEvents cfg s es).stop_at_window = true := by
  induction es generalizing s with
  | nil => exact h
  | cons e es ih =>
    have : (processLoopEvent cfg s e).stop_at_window = true := by
      rw [processLoopEvent_stop, h, Bool.true_or]
    exact ih _ this

theorem processBatchEvents_stop_of_mem (cfg : PagConfig) (s : PagState)
    {es : List TimelineEvent} {e : TimelineEvent} {t start : Int}
    (hw : cfg.window_start_ts = some start) (hmem : e ∈ es)
    (ht : e.timestamp = some t) (hlt : t < start) :
    (processBatchEvents cfg s es).stop_at_window = true := by
  induction es generalizing s with
  | nil => simp at hmem
  | cons a as ih =>
    rcases List.mem_cons.mp hmem with rfl | hmem'
    · have hset : (processLoopEvent cfg s e).stop_at_window = true := by
        rw [processLoopEvent_stop, hw, ht]
        simp [hlt]
      exact processBatchEvents_stop_mono cfg _ as hset
    · exact ih (processLoopEvent cfg s a) hmem'

/--
C4 counterexample: with `window_start_ts = some 1000`, a batch containing an
event with timestamp exactly 1000 (so ts ≤ window_start_ts holds with
equality) does not set `stop_at_window`, and the loop goes on to consume a
second batch. The claim's inclusive `≤` trigger is therefore false at this
input; the source tests `ts_millis < start` strictly.
-/
theorem stop_at_window_not_inclusive :
    (evAt 1000).timestamp = some 1000 ∧
    cfgSample.window_start_ts = some 1000 ∧
    (processBatchEvents cfgSample (initialPagState none none) [evAt 1000]).stop_at_window
      = false ∧
    (paginationLoop cfgSample (initialPagState none none)
        [⟨[evAt 1000], false⟩, ⟨[evAt 500], false⟩]).2 = 2 :=
  ⟨rfl, rfl, rfl, rfl⟩

/--
C4 (amended): during backward pagination with `window_start_ts` present, every
event in a batch whose timestamp is strictly less than `window_start_ts` sets
the `stop_at_window` flag, and a nonempty batch containing such an event is
the last batch the loop consumes. An event with timestamp equal to
`window_start_ts` lies inside the window and does not set the flag.
-/
theorem pagination_stops_below_window_start (cfg : PagConfig) (s : PagState)
    (o : PaginationOutcome) (rest : List PaginationOutcome)
    (e : TimelineEvent) (t start : Int)
    (hw : cfg.window_start_ts = some start) (hmem : e ∈ o.events)
    (ht : e.timestamp = some t) (hlt : t < start) :
    (processBatchEvents cfg s o.events).stop_at_window = true ∧
    (paginationLoop cfg s (o :: rest)).2 = 1 := by
  have hflag : ∀ s' : PagState,
      (processBatchEvents cfg s' o.events).stop_at_window = true :=
    fun s' => processBatchEvents_stop_of_mem cfg s' hw hmem ht hlt
  refine ⟨hflag s, ?_⟩
  have hne : o.events.isEmpty = false := by
    cases hev : o.events with
    | nil => rw [hev] at hmem; simp at hmem
    | cons a l => rfl
  unfold paginationLoop
  rw [hne]
  simp only [Bool.false_eq_true, if_false]
  rw [hflag (if o.reached_start then markFullyCrawled s else s), Bool.true_or, if_pos rfl]

/-- Witness for the C4 theorem: a single batch holding one event at ts 500,
strictly before the window start 1000, is the last batch consumed. -/
theorem pagination_stops_below_window_start_witness :
    (processBatchEvents cfgSample (initialPagState none none)
        (PaginationOutcome.mk [evAt 500] false).events).stop_at_window = true ∧
    (paginationLoop cfgSample (initialPagState none none)
        [PaginationOutcome.mk [evAt 500] false]).2 = 1 :=
  pagination_stops_below_window_start cfgSample (initialPagState none none)
    (PaginationOutcome.mk [evAt 500] false) [] (evAt 500) 500 1000 rfl
    (List.mem_singleton.mpr rfl) rfl (by decide)

theorem includedEmojiHit_state (cfg : PagConfig) {s s' : PagState}
    (h : s'.stats.user_message_ids = s.stats.user_message_ids)
    (e : TimelineEvent) (ts : Int) (em : String) :
    includedEmojiHit cfg s' e ts em = includedEmojiHit cfg s e ts em := by
  unfold includedEmojiHit
  rw [h]

theorem includedTargetHit_state (cfg : PagConfig) {s s' : PagState}
    (h : s'.stats.user_message_ids = s.stats.user_message_ids)
    (e : TimelineEvent) (ts : Int) (tgt : String) :
    includedTargetHit cfg s' e ts tgt = includedTargetHit cfg s e ts tgt := by
  unfold includedTargetHit
  rw [h]

theorem processIncludedEvent_emoji (cfg : PagConfig) (s : PagState) (e : TimelineEvent)
    (ts : Int) (em : String) :
    (processIncludedEvent cfg s e ts).stats.reactions_by_emoji em =
      s.stats.reactions_by_emoji em + (if includedEmojiHit cfg s e ts em then 1 else 0) := by
  cases hdt : cfg.localBuckets ts with
  | none => simp [processIncludedEvent, includedEmojiHit, hdt]
  | some dt =>
    cases hde : e.deserialized with
    | none => simp [processIncludedEvent, includedEmojiHit, hdt, hde]
    | some de =>
      cases hk : de.kind with
      | roomMessage =>
        simp only [processIncludedEvent, includedEmojiHit, hdt, hde, hk]
        repeat' split
        all_goals simp_all
      | roomEncrypted =>
        simp only [processIncludedEvent, includedEmojiHit, hdt, hde, hk]
        repeat' split
        all_goals simp_all
      | reaction content =>
        cases content with
        | none => simp [processIncludedEvent, includedEmojiHit, hdt, hde, hk]
        | some p =>
          obtain ⟨emoji, target⟩ := p
          simp only [processIncludedEvent, includedEmojiHit, hdt, hde, hk]
          by_cases hmemb : (s.stats.user_message_ids target).isSome
          · by_cases heq : emoji = em
            · subst heq
              simp [hmemb, bump]
            · simp [hmemb, bump, heq, Ne.symm heq]
          · simp [hmemb]
      | otherMessageLike => simp [processIncludedEvent, includedEmojiHit, hdt, hde, hk]
      | roomCreate =>
        simp only [processIncludedEvent, includedEmojiHit, hdt, hde, hk]
        split <;> simp
      | otherState => simp [processIncludedEvent, includedEmojiHit, hdt, hde, hk]

theorem processIncludedEvent_target (cfg : PagConfig) (s : PagState) (e : TimelineEvent)
    (ts : Int) (tgt : String) :
    (processIncludedEvent cfg s e ts).stats.reactions_by_message tgt =
      s.stats.reactions_by_message tgt + (if includedTargetHit cfg s e ts tgt then 1 else 0) := by
  cases hdt : cfg.localBuckets ts with
  | none => simp [processIncludedEvent, includedTargetHit, hdt]
  | some dt =>
    cases hde : e.deserialized with
    | none => simp [processIncludedEvent, includedTargetHit, hdt, hde]
    | some de =>
      cases hk : de.kind with
      | roomMessage =>
        simp only [processIncludedEvent, includedTargetHit, hdt, hde, hk]
        repeat' split
        all_goals simp_all
      | roomEncrypted =>
        simp only [processIncludedEvent, includedTargetHit, hdt, hde, hk]
        repeat' split
        all_goals simp_all
      | reaction content =>
        cases content with
        | none => simp [processIncludedEvent, includedTargetHit, hdt, hde, hk]
        | some p =>
          obtain ⟨emoji, target⟩ := p
          simp only [processIncludedEvent, includedTargetHit, hdt, hde, hk]
          by_cases hmemb : (s.stats.user_message_ids target).isSome
          · by_cases heq : target = tgt
            · subst heq
              simp [hmemb, bump]
            · simp [hmemb, bump, heq, Ne.symm heq]
          · simp [hmemb]
      | otherMessageLike => simp [processIncludedEvent, includedTargetHit, hdt, hde, hk]
      | roomCreate =>
        simp only [processIncludedEvent, includedTargetHit, hdt, hde, hk]
        split <;> simp
      | otherState => simp [processIncludedEvent, includedTargetHit, hdt, hde, hk]

theorem processLoopEvent_emoji (cfg : PagConfig) (s : PagState) (e : TimelineEvent)
    (em : String) :
    (processLoopEvent cfg s e).stats.reactions_by_emoji em =
      s.stats.reactions_by_emoji em + (if reactionEmojiHit cfg s e em then 1 else 0) := by
  cases ht : e.timestamp with
  | none => simp [processLoopEvent, reactionEmojiHit, ht]
  | some ts =>
    simp only [processLoopEvent, reactionEmojiHit, ht]
    by_cases hbelow : (match cfg.window_start_ts with
        | some start => decide (ts < start)
        | none => false) = true
    · rw [if_pos hbelow]
      simp [inWindowForStats, hbelow, updateExtrema_reactions_by_emoji]
    · rw [if_neg hbelow]
      by_cases hend : decide (ts > cfg.window_end_ts) = true
      · rw [if_pos hend]
        have hgt : ¬ ts ≤ cfg.window_end_ts := by simpa [not_le] using of_decide_eq_true hend
        simp [inWindowForStats, updateExtrema_reactions_by_emoji, hgt]
      · rw [if_neg hend]
        rw [processIncludedEvent_emoji]
        have hums : ({ s with
            stats := updateExtrema s.stats e.event_id ts
            progress_events := s.progress_events + 1 } : PagState).stats.user_message_ids =
              s.stats.user_message_ids := updateExtrema_user_message_ids _ _ _
        rw [includedEmojiHit_state cfg hums]
        have hle : ts ≤ cfg.window_end_ts := by
          by_contra hcon
          exact hend (decide_eq_true (by omega))
        have hnb : (match cfg.window_start_ts with
            | some start => decide (ts < start)
            | none => false) = false := by
          cases hw : cfg.window_start_ts with
          | none => rfl
          | some start =>
            rw [hw] at hbelow
            simpa using hbelow
        simp [inWindowForStats, updateExtrema_reactions_by_emoji, hle, hnb]

theorem processLoopEvent_target (cfg : PagConfig) (s : PagState) (e : TimelineEvent)
    (tgt : String) :
    (processLoopEvent cfg s e).stats.reactions_by_message tgt =
      s.stats.reactions_by_message tgt + (if reactionTargetHit cfg s e tgt then 1 else 0) := by
  cases ht : e.timestamp with
  | none => simp [processLoopEvent, reactionTargetHit, ht]
  | some ts =>
    simp only [processLoopEvent, reactionTargetHit, ht]
    by_cases hbelow : (match cfg.window_start_ts with
        | some start => decide (ts < start)
        | none => false) = true
    · rw [if_pos hbelow]
      simp [inWindowForStats, hbelow, updateExtrema_reactions_by_message]
    · rw [if_neg hbelow]
      by_cases hend : decide (ts > cfg.window_end_ts) = true
      · rw [if_pos hend]
        have hgt : ¬ ts ≤ cfg.window_end_ts := by simpa [not_le] using of_decide_eq_true hend
        simp [inWindowForStats, updateExtrema_reactions_by_message, hgt]
      · rw [if_neg hend]
        rw [processIncludedEvent_target]
        have hums : ({ s with
            stats := updateExtrema s.stats e.event_id ts
            progress_events := s.progress_events + 1 } : PagState).stats.user_message_ids =
              s.stats.user_message_ids := updateExtrema_user_message_ids _ _ _
        rw [includedTargetHit_state cfg hums]
        have hle : ts ≤ cfg.window_end_ts := by
          by_contra hcon
          exact hend (decide_eq_true (by omega))
        have hnb : (match cfg.window_start_ts with
            | some start => decide (ts < start)
            | none => false) = false := by
          cases hw : cfg.window_start_ts with
          | none => rfl
          | some start =>
            rw [hw] at hbelow
            simpa using hbelow
        simp [inWindowForStats, updateExtrema_reactions_by_message, hle, hnb]

/--
C7 counterexample: the aggregator checks a reaction's target against the user
message ids recorded so far, so the order of processing matters. With the
reaction processed before its target message (backward pagination delivers
newer events first), the reaction is ignored even though the target is in the
final `user_message_ids` set; in the reverse order it is counted. This
refutes the claim's "regardless of the order in which the reaction and its
target message are processed".
-/
theorem reaction_order_dependence :
    (processBatchEvents cfgSample (initialPagState none none)
        [evReaction, evOwnMessage]).stats.reactions_by_emoji "+1" = 0 ∧
    (processBatchEvents cfgSample (initialPagState none none)
        [evReaction, evOwnMessage]).stats.reactions_by_message "m1" = 0 ∧
    ((processBatchEvents cfgSample (initialPagState none none)
        [evReaction, evOwnMessage]).stats.user_message_ids "m1").isSome = true ∧
    (processBatchEvents cfgSample (initialPagState none none)
        [evOwnMessage, evReaction]).stats.reactions_by_emoji "+1" = 1 :=
  ⟨rfl, rfl, rfl, rfl⟩

/--
C7 (amended): for every sequence of events folded by the aggregator, the
final `reactions_by_emoji` count of an emoji (and `reactions_by_message`
count of a target) exceeds its initial value by exactly the number of
window-included reaction events whose target is a member of the room's
`user_message_ids` set as accumulated from the events processed before them:
a reaction contributes if and only if its target message was processed
earlier, so the order of reaction and target matters.
-/
theorem reaction_counting (cfg : PagConfig) (s : PagState) (es : List TimelineEvent)
    (em tgt : String) :
    (processBatchEvents cfg s es).stats.reactions_by_emoji em =
      s.stats.reactions_by_emoji em + countEmojiHits cfg s es em ∧
    (processBatchEvents cfg s es).stats.reactions_by_message tgt =
      s.stats.reactions_by_message tgt + countTargetHits cfg s es tgt := by
  induction es generalizing s with
  | nil => simp [processBatchEvents, countEmojiHits, countTargetHits]
  | cons e es ih =>
    obtain ⟨ih1, ih2⟩ := ih (processLoopEvent cfg s e)
    constructor
    · have hstep : processBatchEvents cfg s (e :: es) =
        processBatchEvents cfg (processLoopEvent cfg s e) es := rfl
      rw [hstep, ih1, processLoopEvent_emoji, countEmojiHits]
      omega
    · have hstep : processBatchEvents cfg s (e :: es) =
        processBatchEvents cfg (processLoopEvent cfg s e) es := rfl
      rw [hstep, ih2, processLoopEvent_target, countTargetHits]
      omega

theorem optMinMerge_none_right (a : Option Int) : optMinMerge a none = a := by
  cases a <;> rfl

theorem optMaxMerge_none_right (a : Option Int) : optMaxMerge a none = a := by
  cases a <;> rfl

theorem optMinMerge_comm (a b : Option Int) : optMinMerge a b = optMinMerge b a := by
  cases a <;> cases b <;> simp [optMinMerge, min_comm]

theorem optMaxMerge_comm (a b : Option Int) : optMaxMerge a b = optMaxMerge b a := by
  cases a <;> cases b <;> simp [optMaxMerge, max_comm]

theorem optMinMerge_assoc (a b c : Option Int) :
    optMinMerge (optMinMerge a b) c = optMinMerge a (optMinMerge b c) := by
  cases a <;> cases b <;> cases c <;> simp [optMinMerge, min_assoc]

theorem optMaxMerge_assoc (a b c : Option Int) :
    optMaxMerge (optMaxMerge a b) c = optMaxMerge a (optMaxMerge b c) := by
  cases a <;> cases b <;> cases c <;> simp [optMaxMerge, max_assoc]

theorem optMinMerge_left_comm (a b c : Option Int) :
    optMinMerge a (optMinMerge b c) = optMinMerge b (optMinMerge a c) := by
  rw [← optMinMerge_assoc, optMinMerge_comm a b, optMinMerge_assoc]

theorem optMaxMerge_left_comm (a b c : Option Int) :
    optMaxMerge a (optMaxMerge b c) = optMaxMerge b (optMaxMerge a c) := by
  rw [← optMaxMerge_assoc, optMaxMerge_comm a b, optMaxMerge_assoc]

theorem sqlMin_cons (x : Int) (xs : List Int) :
    sqlMin (x :: xs) = optMinMerge (some x) (sqlMin xs) := by
  cases h : sqlMin xs <;> simp [sqlMin, h, optMinMerge]

theorem sqlMax_cons (x : Int) (xs : List Int) :
    sqlMax (x :: xs) = optMaxMerge (some x) (sqlMax xs) := by
  cases h : sqlMax xs <;> simp [sqlMax, h, optMaxMerge]

theorem update_from_oldest (c : CoverageBounds) (st : DetailedPaginationStats) :
    (c.update_from st).oldest_ts = optMinMerge st.oldest_ts c.oldest_ts := by
  simp only [CoverageBounds.update_from]
  cases st.oldest_ts <;> cases st.newest_ts <;> cases c.oldest_ts <;>
    simp [optMinMerge, min_comm]

theorem update_from_newest (c : CoverageBounds) (st : DetailedPaginationStats) :
    (c.update_from st).newest_ts = optMaxMerge st.newest_ts c.newest_ts := by
  simp only [CoverageBounds.update_from]
  cases st.oldest_ts <;> cases st.newest_ts <;> cases c.newest_ts <;>
    simp [optMaxMerge, max_comm]

theorem buildStatsCoverage_fold_oldest (inputs : List RoomStatsInput) (c : CoverageBounds) :
    (inputs.foldl
        (fun cov input =>
          if input.stats.user_events == 0 then cov
          else cov.update_from input.stats) c).oldest_ts =
      optMinMerge
        (sqlMin ((inputs.filter fun i => !(i.stats.user_events == 0)).filterMap
          fun i => i.stats.oldest_ts))
        c.oldest_ts := by
  induction inputs generalizing c with
  | nil => simp [optMinMerge, sqlMin]
  | cons i rest ih =>
    by_cases hz : (i.stats.user_events == 0) = true
    · rw [List.foldl_cons, if_pos hz, ih]
      have hfil : List.filter (fun i => !(i.stats.user_events == 0)) (i :: rest) =
          List.filter (fun i => !(i.stats.user_events == 0)) rest := by
        simp [List.filter_cons, hz]
      rw [hfil]
    · rw [List.foldl_cons, if_neg hz, ih]
      have hfil : List.filter (fun i => !(i.stats.user_events == 0)) (i :: rest) =
          i :: List.filter (fun i => !(i.stats.user_events == 0)) rest := by
        simp [List.filter_cons]
        simpa using hz
      rw [hfil, List.filterMap_cons]
      cases ho : i.stats.oldest_ts with
      | none =>
        simp only
        rw [update_from_oldest, ho]
        rfl
      | some ts =>
        simp only
        rw [update_from_oldest, ho, sqlMin_cons, optMinMerge_assoc,
          optMinMerge_left_comm]

theorem buildStatsCoverage_fold_newest (inputs : List RoomStatsInput) (c : CoverageBounds) :
    (inputs.foldl
        (fun cov input =>
          if input.stats.user_events == 0 then cov
          else cov.update_from input.stats) c).newest_ts =
      optMaxMerge
        (sqlMax ((inputs.filter fun i => !(i.stats.user_events == 0)).filterMap
          fun i => i.stats.newest_ts))
        c.newest_ts := by
  induction inputs generalizing c with
  | nil => simp [optMaxMerge, sqlMax]
  | cons i rest ih =>
    by_cases hz : (i.stats.user_events == 0) = true
    · rw [List.foldl_cons, if_pos hz, ih]
      have hfil : List.filter (fun i => !(i.stats.user_events == 0)) (i :: rest) =
          List.filter (fun i => !(i.stats.user_events == 0)) rest := by
        simp [List.filter_cons, hz]
      rw [hfil]
    · rw [List.foldl_cons, if_neg hz, ih]
      have hfil : List.filter (fun i => !(i.stats.user_events == 0)) (i :: rest) =
          i :: List.filter (fun i => !(i.stats.user_events == 0)) rest := by
        simp [List.filter_cons]
        simpa using hz
      rw [hfil, List.filterMap_cons]
      cases hn : i.stats.newest_ts with
      | none =>
        simp only
        rw [update_from_newest, hn]
        rfl
      | some ts =>
        simp only
        rw [update_from_newest, hn, sqlMax_cons, optMaxMerge_assoc,
          optMaxMerge_left_comm]

/--
C8 counterexample: a single room input carrying timestamps (oldest 1111,
newest 2222) but zero user messages. `build_stats` skips it before the
coverage update, so `compute_coverage_bounds` falls back to the window
bounds, while the claim says the bounds derive from the room's timestamps
(which render as days of 1970 here).
-/
theorem coverage_ignores_zero_message_rooms :
    (compute_coverage_bounds (buildStatsCoverage [inputNoUserMessages]) localDaySample
        "2025-01-01" "2025-12-31").1 = "2025-01-01" ∧
    (compute_coverage_bounds (buildStatsCoverage [inputNoUserMessages]) localDaySample
        "2025-01-01" "2025-12-31").2.1 = "2025-12-31" ∧
    claimCoverage [inputNoUserMessages] localDaySample "2025-01-01" "2025-12-31" =
      ("1970-01-01", "1970-01-02") ∧
    inputNoUserMessages.stats.oldest_ts = some 1111 ∧
    inputNoUserMessages.stats.newest_ts = some 2222 :=
  ⟨rfl, rfl, rfl, rfl, rfl⟩

/--
C8 (amended): in the statistics document, `coverage.from` and `coverage.to`
derive from MIN(oldest_ts) and MAX(newest_ts) across the per-room aggregates
of the rooms with at least one user message, whenever such a room contributed
both bounds, and fall back to the window's from/to bounds otherwise; rooms
with zero user messages never contribute.
-/
theorem coverage_from_contributing_rooms (room_inputs : List RoomStatsInput)
    (localDay : Int → Option String) (ws_from ws_to : String) :
    ((compute_coverage_bounds (buildStatsCoverage room_inputs) localDay ws_from ws_to).1,
     (compute_coverage_bounds (buildStatsCoverage room_inputs) localDay ws_from ws_to).2.1) =
      (match
          sqlMin ((room_inputs.filter fun i => !(i.stats.user_events == 0)).filterMap
            fun i => i.stats.oldest_ts),
          sqlMax ((room_inputs.filter fun i => !(i.stats.user_events == 0)).filterMap
            fun i => i.stats.newest_ts) with
        | some o, some n => ((localDay o).getD ws_from, (localDay n).getD ws_to)
        | _, _ => (ws_from, ws_to)) := by
  have ho := buildStatsCoverage_fold_oldest room_inputs
    { oldest_ts := none, newest_ts := none, active_dates := [] }
  have hn := buildStatsCoverage_fold_newest room_inputs
    { oldest_ts := none, newest_ts := none, active_dates := [] }
  rw [optMinMerge_none_right] at ho
  rw [optMaxMerge_none_right] at hn
  simp only [compute_coverage_bounds, buildStatsCoverage]
  rw [ho, hn]

theorem rustMaxByKey_append_singleton (l : List (String × Int)) (x : String × Int) :
    rustMaxByKey (l ++ [x]) =
      match rustMaxByKey l with
      | none => some x
      | some a => if a.2 ≤ x.2 then some x else some a := by
  simp [rustMaxByKey, List.foldl_append]

theorem rustMaxByKey_lastMax (l : List (String × Int)) :
    lastMaxSpec l (rustMaxByKey l) := by
  induction l using List.reverseRecOn with
  | nil => rfl
  | append_singleton l x ih =>
    rw [rustMaxByKey_append_singleton]
    cases hmax : rustMaxByKey l with
    | none =>
      dsimp only
      have hnil : l = [] := by rw [hmax] at ih; exact ih
      subst hnil
      exact ⟨[], [], rfl, by simp, by simp⟩
    | some a =>
      dsimp only
      rw [hmax] at ih
      obtain ⟨l1, l2, rfl, h1, h2⟩ := ih
      by_cases hle : a.2 ≤ x.2
      · rw [if_pos hle]
        refine ⟨l1 ++ a :: l2, [], by simp, ?_, by simp⟩
        intro q hq
        rcases List.mem_append.mp hq with hq1 | hq2
        · exact (h1 q hq1).trans hle
        · rcases List.mem_cons.mp hq2 with rfl | hq3
          · exact hle
          · exact (h2 q hq3).le.trans hle
      · rw [if_neg hle]
        refine ⟨l1, l2 ++ [x], by simp, h1, ?_⟩
        intro q hq
        rcases List.mem_append.mp hq with hq1 | hq2
        · exact h2 q hq1
        · rcases List.mem_singleton.mp hq2 with rfl
          exact lt_of_not_le hle

theorem rustMaxByKey_eq_none_iff (l : List (String × Int)) :
    rustMaxByKey l = none ↔ l = [] := by
  constructor
  · intro h
    have := rustMaxByKey_lastMax l
    rw [h] at this
    exact this
  · rintro rfl
    rfl

/--
C9 counterexample: with two year buckets tied at count 5, `compute_peaks`
(whose `max_by_key` keeps the last maximal element of the iteration
sequence) reports the later key "2002", not the smallest key "2001" the
claim prescribes; with the opposite iteration order of the same map it would
report "2001", so on ties the result is not a function of the bucket map.
-/
theorem compute_peaks_tie_break_counterexample :
    compute_peaks [("2001", 5), ("2002", 5)] [] [] [] [] =
      some { year := some ("2002", 5), month := none, week := none, day := none,
             hour := none } ∧
    compute_peaks [("2002", 5), ("2001", 5)] [] [] [] [] =
      some { year := some ("2001", 5), month := none, week := none, day := none,
             hour := none } ∧
    smallestKeyPeak [("2001", 5), ("2002", 5)] = some ("2001", 5) := by
  refine ⟨rfl, rfl, ?_⟩
  decide

/--
C9 (amended): for each temporal family among year, month, week, day, and
hour, the peak reported by `compute_peaks` is the LAST entry of the family's
iteration sequence that attains the largest count (every earlier entry counts
at most as much, every later entry strictly less), and the result is `none`
exactly when all five sequences are empty. On ties the outcome therefore
depends on the hash map's iteration order and is not a deterministic
function of the bucket maps.
-/
theorem compute_peaks_last_maximal (y m w d h : List (String × Int)) :
    peaksSpec y m w d h (compute_peaks y m w d h) := by
  simp only [compute_peaks]
  split
  · rename_i hcond
    simp only [Bool.and_eq_true, Option.isNone_iff_eq_none] at hcond
    obtain ⟨⟨⟨⟨hy, hm⟩, hw⟩, hd⟩, hh⟩ := hcond
    exact ⟨(rustMaxByKey_eq_none_iff y).mp hy, (rustMaxByKey_eq_none_iff m).mp hm,
      (rustMaxByKey_eq_none_iff w).mp hw, (rustMaxByKey_eq_none_iff d).mp hd,
      (rustMaxByKey_eq_none_iff h).mp hh⟩
  · exact ⟨rustMaxByKey_lastMax y, rustMaxByKey_lastMax m, rustMaxByKey_lastMax w,
      rustMaxByKey_lastMax d, rustMaxByKey_lastMax h⟩

theorem isAsciiDigit_toNat {c : Char} (h : isAsciiDigit c = true) :
    48 ≤ c.toNat ∧ c.toNat ≤ 57 := by
  simpa [isAsciiDigit] using h

theorem not_ws_of_digit {c : Char} (h : isAsciiDigit c = true) :
    rustIsWhitespace c = false := by
  obtain ⟨h1, h2⟩ := isAsciiDigit_toNat h
  simp only [rustIsWhitespace]
  simp only [Bool.or_eq_false_iff, decide_eq_false_iff_not, Bool.and_eq_false_iff]
  omega

theorem digit_ne_dash {c : Char} (h : isAsciiDigit c = true) : c ≠ '-' := by
  obtain ⟨h1, h2⟩ := isAsciiDigit_toNat h
  rintro rfl
  simp at h1 h2

theorem digit_ne_plus {c : Char} (h : isAsciiDigit c = true) : c ≠ '+' := by
  obtain ⟨h1, h2⟩ := isAsciiDigit_toNat h
  rintro rfl
  simp at h1 h2

theorem trimLeft_cons_of_not_ws {c : Char} (h : rustIsWhitespace c = false)
    (l : List Char) : trimLeft (c :: l) = c :: l := by
  simp [trimLeft, h]

theorem splitDashW_eq {w ys ws : List Char} (h : splitDashW w = some (ys, ws)) :
    w = ys ++ '-' :: 'W' :: ws := by
  induction w generalizing ys ws with
  | nil => simp [splitDashW] at h
  | cons c rest ih =>
    simp only [splitDashW] at h
    split at h
    · rename_i hc
      obtain ⟨rfl, hW⟩ := hc
      have hpair : ([] : List Char) = ys ∧ rest.tail = ws := by
        have h' := Option.some.inj h
        exact ⟨congrArg Prod.fst h', congrArg Prod.snd h'⟩
      obtain ⟨h1, h2⟩ := hpair
      subst h1
      subst h2
      cases rest with
      | nil => simp at hW
      | cons r rest' =>
        obtain rfl : r = 'W' := by simpa using hW
        simp
    · rw [Option.map_eq_some'] at h
      obtain ⟨⟨ys', ws'⟩, hsp, heq⟩ := h
      have hpair : c :: ys' = ys ∧ ws' = ws := by
        have h' := heq
        exact ⟨congrArg Prod.fst h', congrArg Prod.snd h'⟩
      obtain ⟨h1, h2⟩ := hpair
      subst h1
      subst h2
      rw [ih hsp]
      simp

theorem rust_parse_i32_shape {ys : List Char} {y : Int}
    (h : rust_parse_i32 ys = some y) (hpos : 0 < y) :
    ∃ ds, (ys = ds ∨ ys = '+' :: ds) ∧ ds ≠ [] ∧ (∀ c ∈ ds, isAsciiDigit c = true) ∧
      y = (digitsVal ds : Int) ∧ digitsVal ds ≤ 2 ^ 31 - 1 := by
  unfold rust_parse_i32 at h
  split at h
  · rename_i hplus
    rw [Option.map_eq_some'] at h
    obtain ⟨n, hd, rfl⟩ := h
    unfold rustParseDigits at hd
    split at hd
    · rename_i hcond
      obtain ⟨hne, hdig, hbound⟩ := hcond
      obtain rfl : digitsVal ys.tail = n := by simpa using hd
      refine ⟨ys.tail, Or.inr ?_, hne, hdig, rfl, hbound⟩
      cases ys with
      | nil => simp at hplus
      | cons a l =>
        obtain rfl : a = '+' := by simpa using hplus
        rfl
    · simp at hd
  · split at h
    · exfalso
      rw [Option.map_eq_some'] at h
      obtain ⟨n, hd, hfn⟩ := h
      have hfn' : -(Int.ofNat n) = y := hfn
      rw [← hfn'] at hpos
      have h2 : (0 : Int) ≤ Int.ofNat n := Int.ofNat_nonneg n
      linarith
    · rw [Option.map_eq_some'] at h
      obtain ⟨n, hd, rfl⟩ := h
      unfold rustParseDigits at hd
      split at hd
      · rename_i hcond
        obtain ⟨hne, hdig, hbound⟩ := hcond
        obtain rfl : digitsVal ys = n := by simpa using hd
        exact ⟨ys, Or.inl rfl, hne, hdig, rfl, hbound⟩
      · simp at hd

theorem scanNumAux_stop {cs : List Char}
    (h : ∀ c, cs.head? = some c → isAsciiDigit c = false) (maxw acc : Nat) :
    scanNumAux maxw acc cs = (acc, cs) := by
  cases cs with
  | nil => rfl
  | cons c cs' =>
    have hc := h c rfl
    simp [scanNumAux, hc]

theorem scanNumAux_digits (ds : List Char) :
    ∀ (rest : List Char) (maxw acc : Nat),
      (∀ c ∈ ds, isAsciiDigit c = true) →
      (∀ c, rest.head? = some c → isAsciiDigit c = false) →
      ds.length ≤ maxw →
      scanNumAux maxw acc (ds ++ rest) =
        (ds.foldl (fun n c => n * 10 + (c.toNat - 48)) acc, rest) := by
  induction ds with
  | nil =>
    intro rest maxw acc _ hrest _
    simpa using scanNumAux_stop hrest maxw acc
  | cons d ds' ih =>
    intro rest maxw acc hdig hrest hlen
    have hd : isAsciiDigit d = true := hdig d (by simp)
    have hmw : 0 < maxw := by
      simp only [List.length_cons] at hlen
      omega
    simp only [List.cons_append, scanNumAux]
    rw [if_pos ⟨hmw, hd⟩]
    simp only [List.append_eq]
    rw [ih rest (maxw - 1) _ (fun c hc => hdig c (by simp [hc])) hrest
      (by simp only [List.length_cons] at hlen; omega)]
    simp

theorem scanNum_exact {ds rest : List Char} {maxw : Nat} (hne : ds ≠ [])
    (hdig : ∀ c ∈ ds, isAsciiDigit c = true)
    (hrest : ∀ c, rest.head? = some c → isAsciiDigit c = false)
    (hlen : ds.length ≤ maxw) :
    scanNum maxw (ds ++ rest) = some (digitsVal ds, rest) := by
  cases ds with
  | nil => exact absurd rfl hne
  | cons d ds' =>
    have hd : isAsciiDigit d = true := hdig d (by simp)
    simp only [List.cons_append, scanNum]
    rw [if_pos hd]
    try simp only [List.append_eq]
    rw [scanNumAux_digits ds' rest (maxw - 1) _ (fun c hc => hdig c (by simp [hc])) hrest
      (by simp only [List.length_cons] at hlen; omega)]
    simp [digitsVal]

theorem scanNumAux_overflow (ds : List Char) :
    ∀ (rest : List Char) (maxw acc : Nat),
      (∀ c ∈ ds, isAsciiDigit c = true) → maxw < ds.length →
      ∃ v, scanNumAux maxw acc (ds ++ rest) = (v, ds.drop maxw ++ rest) := by
  induction ds with
  | nil =>
    intro rest maxw acc _ hlt
    simp at hlt
  | cons d ds' ih =>
    intro rest maxw acc hdig hlt
    cases maxw with
    | zero => exact ⟨acc, by simp [scanNumAux]⟩
    | succ mw =>
      have hd : isAsciiDigit d = true := hdig d (by simp)
      simp only [List.cons_append, scanNumAux]
      rw [if_pos ⟨Nat.succ_pos mw, hd⟩]
      simp only [List.append_eq]
      have := ih rest mw (acc * 10 + (d.toNat - 48)) (fun c hc => hdig c (by simp [hc]))
        (by simp only [List.length_cons] at hlt; omega)
      simpa using this

theorem scanNum_overflow {ds rest : List Char} {maxw : Nat}
    (hdig : ∀ c ∈ ds, isAsciiDigit c = true) (hlt : maxw < ds.length)
    (hpos : 1 ≤ maxw) :
    ∃ v, scanNum maxw (ds ++ rest) = some (v, ds.drop maxw ++ rest) := by
  cases ds with
  | nil => simp at hlt
  | cons d ds' =>
    cases maxw with
    | zero => omega
    | succ mw =>
      have hd : isAsciiDigit d = true := hdig d (by simp)
      obtain ⟨v, hv⟩ := scanNumAux_overflow ds' rest mw (d.toNat - 48)
        (fun c hc => hdig c (by simp [hc]))
        (by simp only [List.length_cons] at hlt; omega)
      refine ⟨v, ?_⟩
      simp only [List.cons_append, scanNum]
      rw [if_pos hd]
      try simp only [List.append_eq]
      simpa using hv

theorem head_drop_digit {ds : List Char} {maxw : Nat}
    (hdig : ∀ c ∈ ds, isAsciiDigit c = true) (hlt : maxw < ds.length) :
    ∃ c cs, ds.drop maxw = c :: cs ∧ isAsciiDigit c = true := by
  have hne : ds.drop maxw ≠ [] := by
    simp only [ne_eq, List.drop_eq_nil_iff_le, not_le]
    exact hlt
  obtain ⟨c, cs, hcons⟩ := List.exists_cons_of_ne_nil hne
  refine ⟨c, cs, hcons, hdig c (List.drop_subset maxw ds ?_)⟩
  rw [hcons]
  simp

theorem week_err_masks_day {w ys ws : List Char} {y : Int}
    (hsp : splitDashW w = some (ys, ws)) (hy : rust_parse_i32 ys = some y)
    (h1970 : 1970 ≤ y) : chronoParseYmd w = none := by
  obtain rfl := splitDashW_eq hsp
  obtain ⟨ds, hshape, hne, hdig, hval, hbound⟩ :=
    rust_parse_i32_shape hy (by omega)
  have hrest : ∀ c, ('-' :: 'W' :: ws).head? = some c → isAsciiDigit c = false := by
    intro c hc
    obtain rfl : '-' = c := by simpa using hc
    decide
  have hWs : rustIsWhitespace 'W' = false := by decide
  have hWd : isAsciiDigit 'W' = false := by decide
  have hafter : ∀ y' : Int,
      (if y' < -(2 ^ 31) ∨ 2 ^ 31 - 1 < y' then (none : Option Date)
       else if ('-' :: 'W' :: ws).head? = some '-' then
         match scanNum 2 (trimLeft ('-' :: 'W' :: ws).tail) with
         | none => none
         | some (m, rest2) =>
           if rest2.head? = some '-' then
             match scanNum 2 (trimLeft rest2.tail) with
             | none => none
             | some (d, rest3) =>
               if rest3 = [] then from_ymd_opt y' m d else none
           else none
       else none) = none := by
    intro y'
    by_cases hr : y' < -(2 ^ 31) ∨ 2 ^ 31 - 1 < y'
    · rw [if_pos hr]
    · rw [if_neg hr]
      simp only [List.head?_cons, List.tail_cons]
      rw [if_pos (by trivial)]
      rw [trimLeft_cons_of_not_ws hWs]
      simp [scanNum, hWd]
  rcases hshape with rfl | rfl
  · obtain ⟨d0, ds', rfl⟩ := List.exists_cons_of_ne_nil hne
    have hd0 : isAsciiDigit d0 = true := hdig d0 (by simp)
    simp only [chronoParseYmd]
    rw [List.cons_append, trimLeft_cons_of_not_ws (not_ws_of_digit hd0)]
    simp only [List.head?_cons]
    rw [if_neg (by simp [digit_ne_dash hd0]), if_neg (by simp [digit_ne_plus hd0])]
    by_cases hlen : (d0 :: ds').length ≤ 4
    · rw [show (d0 :: (ds' ++ '-' :: 'W' :: ws)) = (d0 :: ds') ++ '-' :: 'W' :: ws by simp]
      rw [scanNum_exact hne hdig hrest hlen]
      simp only [Option.map_some']
      exact hafter _
    · push_neg at hlen
      rw [show (d0 :: (ds' ++ '-' :: 'W' :: ws)) = (d0 :: ds') ++ '-' :: 'W' :: ws by simp]
      obtain ⟨v, hv⟩ := scanNum_overflow hdig hlen (by norm_num)
      rw [hv]
      obtain ⟨c, cs', hdrop, hcdig⟩ := head_drop_digit hdig hlen
      rw [hdrop]
      simp only [Option.map_some']
      by_cases hr : (v : Int) < -(2 ^ 31) ∨ 2 ^ 31 - 1 < (v : Int)
      · rw [if_pos hr]
      · rw [if_neg hr]
        rw [if_neg ?hcne]
        case hcne =>
          simp [digit_ne_dash hcdig]
  · have hplusws : rustIsWhitespace '+' = false := by decide
    simp only [chronoParseYmd]
    rw [List.cons_append, trimLeft_cons_of_not_ws hplusws]
    simp only [List.head?_cons, List.tail_cons]
    rw [if_neg (by decide : ¬(some '+' = some '-')), if_pos (by trivial)]
    rw [scanNum_exact hne hdig hrest (by simp only [List.length_append]; omega)]
    simp only [Option.map_some']
    exact hafter _

theorem daysInMonth_pos (y : Int) (m : Nat) (h1 : 1 ≤ m) (h2 : m ≤ 12) :
    1 ≤ daysInMonth y m := by
  interval_cases m <;> simp only [daysInMonth] <;> (try split) <;> norm_num

theorem from_ymd_opt_eq_some {y : Int} {m d : Nat}
    (h1 : -262144 ≤ y) (h2 : y ≤ 262143) (h3 : 1 ≤ m) (h4 : m ≤ 12)
    (h5 : 1 ≤ d) (h6 : d ≤ daysInMonth y m) :
    from_ymd_opt y m d = some { year := y, month := m, day := d } := by
  unfold from_ymd_opt
  rw [if_pos ⟨h1, h2, h3, h4, h5, h6⟩]

theorem dayBranch_isSome (w : List Char) :
    (dayBranch w).isSome = (chronoParseYmd w).isSome := by
  unfold dayBranch
  cases chronoParseYmd w <;> rfl

theorem weekBranch_isSome (w : List Char) :
    (weekBranch w).isSome = (weekAcceptB w || (chronoParseYmd w).isSome) := by
  unfold weekBranch weekAcceptB
  cases hsp : splitDashW w with
  | none => simp [weekBranch.fallthrough, dayBranch_isSome]
  | some p =>
    obtain ⟨ys, ws⟩ := p
    cases hy : rust_parse_i32 ys with
    | none => simp [hy, weekBranch.fallthrough, dayBranch_isSome]
    | some y =>
      cases hu : rust_parse_u32 ws with
      | none => simp [hy, hu, weekBranch.fallthrough, dayBranch_isSome]
      | some wk =>
        simp only [hy, hu]
        by_cases hrange : 1970 ≤ y ∧ y ≤ 2099 ∧ 1 ≤ wk ∧ wk ≤ 53
        · rw [if_pos hrange]
          have hjan : from_ymd_opt y 1 4 = some { year := y, month := 1, day := 4 } :=
            from_ymd_opt_eq_some (by omega) (by omega) (by norm_num) (by norm_num)
              (by norm_num) (by simp [daysInMonth])
          rw [hjan]
          simp only
          by_cases hyr :
              (addDays
                (addDays { year := y, month := 1, day := 4 }
                  (-(weekday_number_from_monday { year := y, month := 1, day := 4 } - 1)))
                (((wk : Int) - 1) * 7)).year ≠ y ∧
              (addDays
                (addDays
                  (addDays { year := y, month := 1, day := 4 }
                    (-(weekday_number_from_monday { year := y, month := 1, day := 4 } - 1)))
                  (((wk : Int) - 1) * 7)) 6).year ≠ y
          · rw [if_pos hyr]
            have hmask := week_err_masks_day hsp hy hrange.1
            obtain ⟨hf, ht⟩ := hyr
            simp only [neg_sub] at hf ht
            simp [hmask, hf, ht]
          · rw [if_neg hyr]
            rw [not_and_or, not_ne_iff, not_ne_iff] at hyr
            simp only [Option.isSome_some, Bool.true_eq]
            rw [decide_eq_true hrange]
            simp only [Bool.true_and]
            rcases hyr with hf | ht
            · simp only [neg_sub] at hf
              simp [hf]
            · simp only [neg_sub] at ht
              simp [ht]
        · rw [if_neg hrange]
          rw [show weekBranch.fallthrough w = dayBranch w from rfl, dayBranch_isSome]
          have hd : decide (1970 ≤ y ∧ y ≤ 2099 ∧ 1 ≤ wk ∧ wk ≤ 53) = false :=
            decide_eq_false hrange
          simp [hd]

theorem monthBranch_isSome (w : List Char) :
    (monthBranch w).isSome =
      (monthAcceptB w || weekAcceptB w || (chronoParseYmd w).isSome) := by
  unfold monthBranch monthAcceptB
  cases hsp : splitOnce '-' w with
  | none =>
    rw [show monthBranch.fallthrough w = weekBranch w from rfl]
    simp [weekBranch_isSome]
  | some p =>
    obtain ⟨ys, ms⟩ := p
    cases hy : rust_parse_i32 ys with
    | none =>
      rw [show monthBranch.fallthrough w = weekBranch w from rfl]
      simp [hy, weekBranch_isSome]
    | some y =>
      cases hu : rust_parse_u32 ms with
      | none =>
        rw [show monthBranch.fallthrough w = weekBranch w from rfl]
        simp [hy, hu, weekBranch_isSome]
      | some m =>
        simp only [hy, hu]
        by_cases hrange : 1970 ≤ y ∧ y ≤ 2099 ∧ 1 ≤ m ∧ m ≤ 12
        · rw [if_pos hrange]
          have hf : from_ymd_opt y m 1 = some { year := y, month := m, day := 1 } :=
            from_ymd_opt_eq_some (by omega) (by omega) hrange.2.2.1 hrange.2.2.2
              (by norm_num) (daysInMonth_pos y m hrange.2.2.1 hrange.2.2.2)
          rw [hf]
          simp only
          by_cases h12 : m = 12
          · rw [if_pos h12]
            have ht : from_ymd_opt (y + 1) 1 1 =
                some { year := y + 1, month := 1, day := 1 } :=
              from_ymd_opt_eq_some (by omega) (by omega) (by norm_num) (by norm_num)
                (by norm_num) (by simp [daysInMonth])
            rw [ht]
            simp [hrange]
          · rw [if_neg h12]
            have ht : from_ymd_opt y (m + 1) 1 =
                some { year := y, month := m + 1, day := 1 } :=
              from_ymd_opt_eq_some (by omega) (by omega) (by omega)
                (by omega) (by norm_num)
                (daysInMonth_pos y (m + 1) (by omega) (by omega))
            rw [ht]
            simp [hrange]
        · rw [if_neg hrange]
          rw [show monthBranch.fallthrough w = weekBranch w from rfl, weekBranch_isSome]
          have hd : decide (1970 ≤ y ∧ y ≤ 2099 ∧ 1 ≤ m ∧ m ≤ 12) = false :=
            decide_eq_false hrange
          simp [hd]

/--
C6 counterexample: the input `2025-3` is accepted by `WindowScope::parse`
(as March 2025: Rust's integer parsing does not require two month digits),
but matches none of the claim's five regex forms, so the claim's "succeeds
exactly on the five accepted forms" is false at this input.
-/
theorem window_parse_counterexample :
    (WindowScope.parse { year := 1970, month := 1, day := 1 }
        ("2025-3".toList)).isSome = true ∧
    claimFiveFormsB ("2025-3".toList) = false :=
  ⟨rfl, rfl⟩

/--
C6 (amended): for every input string, `WindowScope::parse` succeeds exactly
on these forms after trimming whitespace: the literal `life`; a Rust i32
(optional sign, any number of digits) valued 1970-2099; a first-dash split
into a Rust i32 year 1970-2099 and a Rust u32 month 1-12; a first `-W` split
into a Rust i32 year 1970-2099 and a Rust u32 week 1-53 whose computed
Monday or Sunday falls in the requested calendar year; or a chrono
`%Y-%m-%d` date (flexible digit counts, optional sign, interior whitespace
after the dashes) denoting a valid calendar day. Every other string fails
with the input-validation error; a week whose computed Monday and Sunday
both fall outside the requested calendar year is rejected, but a week
number that merely does not exist in the requested ISO year (such as W53 of
a 52-week year) is accepted when its range touches the requested calendar
year.
-/
theorem parse_accepts_iff (today : Date) (window : List Char) :
    (WindowScope.parse today window).isSome = acceptedAmendedB window := by
  unfold WindowScope.parse acceptedAmendedB
  by_cases hlife : trim window = "life".toList
  · simp [hlife]
  · rw [if_neg hlife]
    have hbeq : (trim window == "life".toList) = false := by
      simpa using hlife
    simp only [hbeq, Bool.false_or]
    cases hy : rust_parse_i32 (trim window) with
    | none => simp [yearAcceptB, hy, monthBranch_isSome]
    | some y =>
      dsimp only
      by_cases hrange : 1970 ≤ y ∧ y ≤ 2099
      · rw [if_pos hrange]
        have h1 : from_ymd_opt y 1 1 = some { year := y, month := 1, day := 1 } :=
          from_ymd_opt_eq_some (by omega) (by omega) (by norm_num) (by norm_num)
            (by norm_num) (by simp [daysInMonth])
        have h2 : from_ymd_opt y 12 31 = some { year := y, month := 12, day := 31 } :=
          from_ymd_opt_eq_some (by omega) (by omega) (by norm_num) (by norm_num)
            (by norm_num) (by simp [daysInMonth])
        rw [h1, h2]
        simp [yearAcceptB, hy, hrange]
      · rw [if_neg hrange]
        have : decide (1970 ≤ y ∧ y ≤ 2099) = false := decide_eq_false hrange
        simp [yearAcceptB, hy, this, monthBranch_isSome]

end MatrixYear
